import Mathlib

/-!
# Leaf network core: connection, listener and JSON processor

A shallow embedding of `network/tcp_conn.go`, `network/tcp_server.go` and
`network/json/json.go`, followed by the properties proved about them.

Conventions of the embedding.

* A Go byte slice is a `List Char`; a slice that may be `nil` is an `Option`.
* A buffered channel is its buffered contents (oldest first), its capacity and
  a closed bit.  A send on a closed channel and a second `close` are panics, a
  send on a full channel blocks: the three are explicit outcomes.
* The socket is the log of the operations invoked on it, oldest first.
* Every method body that runs under the connection's mutex is one atomic step.
-/

namespace Leaf

/-- Go byte slice. -/
abbrev Bytes := List Char

/-- Result of running a piece of Go code on a state: it returns, it panics, or
it blocks forever on a channel send. -/
inductive Outcome (σ : Type) where
  | ok (s : σ)
  | panic (why : String)
  | block
  deriving DecidableEq, Repr

/-! ## `network/tcp_conn.go` -/

/-- One operation invoked on the underlying `net.Conn`. -/
inductive SockEv where
  | write (b : Bytes) (success : Bool)
  | setLinger (sec : Int)
  | close
  deriving DecidableEq, Repr

/-- Where the goroutine started by `newTCPConn` stands: inside the
`for b := range writeChan` loop, about to call `conn.Close()`, about to set
`closeFlag` under the lock, or finished. -/
inductive DrainPC where
  | loop
  | closing
  | flagging
  | done
  deriving DecidableEq, Repr

/-- State of a `TCPConn`: the socket's operation log (field `conn`), the
channel `writeChan` (contents, capacity, closed bit), `closeFlag`, and the
position of the goroutine of `newTCPConn`.  `chanCloses` counts the executions
of `close(tcpConn.writeChan)`. -/
structure TCPConn where
  conn : List SockEv
  writeChan : List (Option Bytes)
  chanCap : Nat
  chanClosed : Bool
  chanCloses : Nat
  closeFlag : Bool
  drain : DrainPC
  deriving DecidableEq, Repr

/-- `newTCPConn(conn, pendingWriteNum, msgParser)`: a fresh channel of
capacity `pendingWriteNum` and the goroutine at the top of its loop. -/
def newTCPConn (pendingWriteNum : Nat) : TCPConn :=
  { conn := [], writeChan := [], chanCap := pendingWriteNum, chanClosed := false,
    chanCloses := 0, closeFlag := false, drain := DrainPC.loop }

/-- `close(ch)`: panics on a closed channel. -/
def chanClose (c : TCPConn) : Outcome TCPConn :=
  if c.chanClosed then Outcome.panic "close of closed channel"
  else Outcome.ok { c with chanClosed := true, chanCloses := c.chanCloses + 1 }

/-- `ch <- b`: panics on a closed channel, enqueues when there is room, blocks
otherwise. -/
def chanSend (c : TCPConn) (b : Option Bytes) : Outcome TCPConn :=
  if c.chanClosed then Outcome.panic "send on closed channel"
  else if c.writeChan.length < c.chanCap then
    Outcome.ok { c with writeChan := c.writeChan ++ [b] }
  else Outcome.block

/-- `tcpConn.doDestroy()`.  The socket is the `*net.TCPConn` that the TCP
listener's `Accept` returned, so the type assertion before `SetLinger(0)`
succeeds; both socket calls are logged, their error results are dropped as in
the source. -/
def doDestroy (c : TCPConn) : Outcome TCPConn :=
  let c1 := { c with conn := c.conn ++ [SockEv.setLinger 0, SockEv.close] }
  if !c1.closeFlag then
    match chanClose c1 with
    | Outcome.ok c2 => Outcome.ok { c2 with closeFlag := true }
    | o => o
  else Outcome.ok c1

/-- `tcpConn.Destroy()`. -/
def Destroy (c : TCPConn) : Outcome TCPConn :=
  doDestroy c

/-- `tcpConn.doWrite(b)`. -/
def doWrite (c : TCPConn) (b : Option Bytes) : Outcome TCPConn :=
  if c.writeChan.length == c.chanCap then doDestroy c
  else chanSend c b

/-- `tcpConn.Close()`. -/
def Close (c : TCPConn) : Outcome TCPConn :=
  if c.closeFlag then Outcome.ok c
  else
    match doWrite c none with
    | Outcome.ok c1 => Outcome.ok { c1 with closeFlag := true }
    | o => o

/-- `tcpConn.Write(b)`. -/
def Write (c : TCPConn) (b : Option Bytes) : Outcome TCPConn :=
  if c.closeFlag || b.isNone then Outcome.ok c
  else doWrite c b

/-- Whether `conn.Close()` has been invoked on the socket. -/
def sockClosed (c : TCPConn) : Bool :=
  decide (SockEv.close ∈ c.conn)

/-- One step of the goroutine of `newTCPConn`.  `writeOk` is the environment's
answer to `conn.Write(b)`; a write on a socket that was already closed fails
whatever the environment says.  `none`: the goroutine is parked on an empty
open channel, or has finished. -/
def drainStep (c : TCPConn) (writeOk : Bool) : Option TCPConn :=
  match c.drain with
  | DrainPC.loop =>
    match c.writeChan with
    | [] => if c.chanClosed then some { c with drain := DrainPC.closing } else none
    | none :: rest => some { c with writeChan := rest, drain := DrainPC.closing }
    | some b :: rest =>
      let success := writeOk && !sockClosed c
      some { c with writeChan := rest,
                    conn := c.conn ++ [SockEv.write b success],
                    drain := if success then DrainPC.loop else DrainPC.closing }
  | DrainPC.closing =>
    some { c with conn := c.conn ++ [SockEv.close], drain := DrainPC.flagging }
  | DrainPC.flagging =>
    some { c with closeFlag := true, drain := DrainPC.done }
  | DrainPC.done => none

/-- The atomic steps of the tasks sharing one connection. -/
inductive Op where
  | write (b : Option Bytes)
  | close
  | destroy
  | drain (writeOk : Bool)
  deriving DecidableEq, Repr

/-- One atomic step.  A drain step taken while the goroutine is parked leaves
the state as it is. -/
def step (c : TCPConn) : Op → Outcome TCPConn
  | Op.write b => Write c b
  | Op.close => Close c
  | Op.destroy => Destroy c
  | Op.drain w => Outcome.ok ((drainStep c w).getD c)

/-- A schedule of atomic steps, run from left to right; it stops at the first
step that panics or blocks. -/
def run (c : TCPConn) : List Op → Outcome TCPConn
  | [] => Outcome.ok c
  | op :: ops =>
    match step c op with
    | Outcome.ok c1 => run c1 ops
    | o => o

/-- A state some schedule reaches from a freshly created connection. -/
def Reachable (c : TCPConn) : Prop :=
  ∃ (n : Nat) (ops : List Op), run (newTCPConn n) ops = Outcome.ok c

/-- Number of invocations of `conn.Close()` on the socket. -/
def closeCalls (c : TCPConn) : Nat :=
  c.conn.count SockEv.close

/-- Number of `Destroy` calls in a schedule. -/
def destroyCalls (ops : List Op) : Nat :=
  ops.count Op.destroy

/-- Upper estimate of the `conn.Close()` invocations a connection can still
see without a further `Destroy` call: those already made, one while
`closeFlag` is unset, one while the goroutine has not yet closed the socket. -/
def closeBudget (c : TCPConn) : Nat :=
  closeCalls c + (if c.closeFlag then 0 else 1) +
    (if c.drain = DrainPC.loop ∨ c.drain = DrainPC.closing then 1 else 0)

/-- One while the goroutine of `newTCPConn` has its `conn.Close()` still ahead
of it, zero afterwards. -/
def drainPending (c : TCPConn) : Nat :=
  if c.drain = DrainPC.loop ∨ c.drain = DrainPC.closing then 1 else 0

/-- Number of drain steps in a schedule. -/
def drainSteps (ops : List Op) : Nat :=
  ops.countP (fun op => match op with
    | Op.drain _ => true
    | _ => false)

/-- Upper estimate of the steps the goroutine still takes before it finishes. -/
def drainLeft (c : TCPConn) : Nat :=
  match c.drain with
  | DrainPC.loop => c.writeChan.length + 3
  | DrainPC.closing => 2
  | DrainPC.flagging => 1
  | DrainPC.done => 0

/-- Once `closeFlag` is set, a goroutine still in its loop has its exit in
sight: the queue is closed or the nil sentinel is queued. -/
def Live (c : TCPConn) : Prop :=
  c.closeFlag = true → c.drain = DrainPC.loop → c.chanClosed = true ∨ none ∈ c.writeChan

/-- The part of an outcome that returned. -/
def Outcome.get? {σ : Type} : Outcome σ → Option σ
  | Outcome.ok s => some s
  | _ => none

/-- What is known of every reachable state. -/
structure Inv (c : TCPConn) : Prop where
  closed_flag : c.chanClosed = true → c.closeFlag = true
  len_le : c.writeChan.length ≤ c.chanCap
  closes : c.chanCloses = if c.chanClosed then 1 else 0
  no_nil : c.closeFlag = false → ∀ x ∈ c.writeChan, x ≠ none
  sock_open : c.closeFlag = false → c.drain = DrainPC.loop → SockEv.close ∉ c.conn

/-! ## `network/tcp_server.go` -/

/-- Identity of a `net.Conn` handed out by `ln.Accept()`. -/
abbrev Conn := Nat

/-- Two's-complement wrap of a mathematical integer into `int64`. -/
def wrapInt64 (x : Int) : Int :=
  (x + 2 ^ 63) % 2 ^ 64 - 2 ^ 63

/-- `time.Millisecond`, in nanoseconds (`time.Duration` is an `int64`). -/
def Millisecond : Int := 1000000

/-- `time.Second`, in nanoseconds. -/
def Second : Int := 1000000000

/-- State of a `TCPServer` and of its accept loop.  `conns` is the key set of
the map `server.conns`; `accepting` says that the goroutine `run` is still in
its loop; `tempDelay` is the local variable of `run`.  The remaining fields are
logs: `slept` the arguments of `time.Sleep`, `sockClosed` the sockets the
server closed itself, `wrapped` the sockets given to `newTCPConn` and
`NewAgent`, `agents` the sockets whose agent goroutine has not finished. -/
structure TCPServer where
  MaxConnNum : Int
  PendingWriteNum : Int
  conns : List Conn
  accepting : Bool
  tempDelay : Int
  slept : List Int
  sockClosed : List Conn
  wrapped : List Conn
  agents : List Conn
  deriving DecidableEq, Repr

/-- `server.init()` followed by `go server.run()` reaching its loop.  The two
`log.Fatal` exits are errors. -/
def TCPServer.init (listenErr : Option String) (maxConnNum pendingWriteNum : Int)
    (hasNewAgent : Bool) : Except String TCPServer :=
  match listenErr with
  | some e => Except.error e
  | none =>
    let maxConnNum := if maxConnNum ≤ 0 then 100 else maxConnNum
    let pendingWriteNum := if pendingWriteNum ≤ 0 then 100 else pendingWriteNum
    if !hasNewAgent then Except.error "NewAgent must not be nil"
    else Except.ok
      { MaxConnNum := maxConnNum, PendingWriteNum := pendingWriteNum, conns := [],
        accepting := true, tempDelay := 0, slept := [], sockClosed := [], wrapped := [],
        agents := [] }

/-- What `server.ln.Accept()` returns: a socket, an error whose `Temporary()`
is true, or any other error. -/
inductive AcceptResult where
  | conn (c : Conn)
  | temporary
  | permanent
  deriving DecidableEq, Repr

/-- The back-off computation of `run` on a temporary error. -/
def nextDelay (tempDelay : Int) : Int :=
  let d := if tempDelay = 0 then 5 * Millisecond else wrapInt64 (tempDelay * 2)
  if d > 1 * Second then 1 * Second else d

/-- One iteration of the `for` loop of `server.run()`. -/
def acceptIter (s : TCPServer) : AcceptResult → TCPServer
  | AcceptResult.temporary =>
    let d := nextDelay s.tempDelay
    { s with tempDelay := d, slept := s.slept ++ [d] }
  | AcceptResult.permanent => { s with accepting := false }
  | AcceptResult.conn c =>
    let s := { s with tempDelay := 0 }
    if (s.conns.length : Int) ≥ s.MaxConnNum then
      { s with sockClosed := s.sockClosed ++ [c] }
    else
      { s with conns := s.conns.insert c, wrapped := s.wrapped ++ [c],
               agents := s.agents ++ [c] }

/-- The steps of a started server: an iteration of the accept loop, the end of
an agent's `Run` (the cleanup of its goroutine), and `server.Close()` up to the
point where it has emptied the live set. -/
inductive SrvOp where
  | accept (r : AcceptResult)
  | workerDone (c : Conn)
  | close
  deriving DecidableEq, Repr

/-- One server step.  An accept-loop iteration does nothing once the loop has
exited; a completion does nothing for a socket without a running agent.
`Close` closes the listener and waits for the loop to exit, closes every
socket of the live set and drops the set. -/
def srvStep (s : TCPServer) : SrvOp → TCPServer
  | SrvOp.accept r => if s.accepting then acceptIter s r else s
  | SrvOp.workerDone c =>
    if c ∈ s.agents then
      { s with conns := s.conns.erase c, agents := s.agents.erase c }
    else s
  | SrvOp.close =>
    { s with accepting := false, sockClosed := s.sockClosed ++ s.conns, conns := [] }

/-- A sequence of server steps, run from left to right. -/
def srvRun (s : TCPServer) (ops : List SrvOp) : TCPServer :=
  ops.foldl srvStep s

/-- The server `TCPServer.init` returns for `MaxConnNum = 2` and an unset
`PendingWriteNum`; used in examples. -/
def server2 : TCPServer :=
  { MaxConnNum := 2, PendingWriteNum := 100, conns := [], accepting := true, tempDelay := 0,
    slept := [], sockClosed := [], wrapped := [], agents := [] }

/-! ## `network/json/json.go` -/

/-- A `reflect.Type`, as far as the processor looks at it: a named type with
its package path, a pointer type, or any other unnamed type. -/
inductive RType where
  | named (pkgPath name : String)
  | ptr (elem : RType)
  | composite (id : Nat)
  deriving DecidableEq, Repr

/-- `t.Name()`: the empty string for an unnamed type. -/
def RType.Name : RType → String
  | RType.named _ n => n
  | _ => ""

/-- The type `MsgRaw` of package `json`. -/
def msgRawType : RType :=
  RType.named "github.com/name5566/leaf/network/json" "MsgRaw"

/-- An `interface{}` value: nil, a `MsgRaw` struct value, or a value of any
other dynamic type `t`; for a pointer type `p` is the address it holds
(`none`: a nil pointer). -/
inductive Iface where
  | nil
  | raw (msgID : String) (msgRawData : Bytes)
  | val (t : RType) (p : Option Nat)
  deriving DecidableEq, Repr

/-- `reflect.TypeOf(msg)`; `none` is the nil type of a nil interface. -/
def typeOf : Iface → Option RType
  | Iface.nil => none
  | Iface.raw _ _ => some msgRawType
  | Iface.val t _ => some t

/-- A `MsgInfo`.  A `MsgHandler` and a `*chanrpc.Server` are known by an
identifier; `none` is nil. -/
structure MsgInfo where
  msgType : RType
  msgRouter : Option Nat
  msgHandler : Option Nat
  msgRawHandler : Option Nat
  deriving DecidableEq, Repr

/-- A `Processor`: the map `msgInfo`, as an association list with one entry per
key. -/
structure Processor where
  msgInfo : List (String × MsgInfo)
  deriving DecidableEq, Repr

/-- `NewProcessor()`. -/
def NewProcessor : Processor :=
  { msgInfo := [] }

/-- `p.msgInfo[msgID]`, with the `ok` flag as `Option`. -/
def Processor.get (p : Processor) (msgID : String) : Option MsgInfo :=
  p.msgInfo.lookup msgID

/-- Assignment to a field of the `*MsgInfo` stored under `msgID`. -/
def Processor.update (p : Processor) (msgID : String) (f : MsgInfo → MsgInfo) : Processor :=
  { msgInfo := p.msgInfo.map (fun kv => if kv.1 = msgID then (kv.1, f kv.2) else kv) }

/-- `fmt.Errorf("message %v not registered", msgID)`. -/
def notRegistered (msgID : String) : String :=
  "message " ++ msgID ++ " not registered"

/-- `p.Register(msg)`; a `log.Fatal` is an error. -/
def Register (p : Processor) (msg : Iface) : Except String (Processor × String) :=
  match typeOf msg with
  | some (RType.ptr e) =>
    let msgID := e.Name
    if msgID = "" then Except.error "unnamed json message"
    else if (p.get msgID).isSome then
      Except.error ("message " ++ msgID ++ " is already registered")
    else
      Except.ok
        ({ msgInfo := p.msgInfo ++ [(msgID, { msgType := RType.ptr e, msgRouter := none,
                                              msgHandler := none, msgRawHandler := none })] },
         msgID)
  | _ => Except.error "json message pointer required"

/-- `p.SetRouter(msg, msgRouter)`. -/
def SetRouter (p : Processor) (msg : Iface) (msgRouter : Option Nat) : Except String Processor :=
  match typeOf msg with
  | some (RType.ptr e) =>
    let msgID := e.Name
    match p.get msgID with
    | none => Except.error (notRegistered msgID)
    | some _ => Except.ok (p.update msgID (fun i => { i with msgRouter := msgRouter }))
  | _ => Except.error "json message pointer required"

/-- `p.SetHandler(msg, msgHandler)`. -/
def SetHandler (p : Processor) (msg : Iface) (msgHandler : Option Nat) :
    Except String Processor :=
  match typeOf msg with
  | some (RType.ptr e) =>
    let msgID := e.Name
    match p.get msgID with
    | none => Except.error (notRegistered msgID)
    | some _ => Except.ok (p.update msgID (fun i => { i with msgHandler := msgHandler }))
  | _ => Except.error "json message pointer required"

/-- `p.SetRawHandler(msgID, msgRawHandler)`. -/
def SetRawHandler (p : Processor) (msgID : String) (msgRawHandler : Option Nat) :
    Except String Processor :=
  match p.get msgID with
  | none => Except.error (notRegistered msgID)
  | some _ => Except.ok (p.update msgID (fun i => { i with msgRawHandler := msgRawHandler }))

/-- An element of the `[]interface{}` handed to a handler or to the router. -/
inductive Arg where
  | msg (m : Iface)
  | str (s : String)
  | rawData (b : Bytes)
  | user (u : Nat)
  deriving DecidableEq, Repr

/-- A call `Route` makes: a `MsgHandler` applied to its argument slice, or
`msgRouter.Go(id, args...)`. -/
inductive Call where
  | handler (h : Nat) (args : List Arg)
  | routerGo (r : Nat) (id : RType) (args : List Arg)
  deriving DecidableEq, Repr

/-- `p.Route(msg, userData)`: the calls made, in order, and the error
returned (`none`: nil). -/
def Route (p : Processor) (msg : Iface) (userData : Nat) : List Call × Option String :=
  match msg with
  | Iface.raw msgID msgRawData =>
    match p.get msgID with
    | none => ([], some (notRegistered msgID))
    | some i =>
      match i.msgRawHandler with
      | some h =>
        ([Call.handler h [Arg.str msgID, Arg.rawData msgRawData, Arg.user userData]], none)
      | none => ([], none)
  | _ =>
    match typeOf msg with
    | some (RType.ptr e) =>
      let msgID := e.Name
      match p.get msgID with
      | none => ([], some (notRegistered msgID))
      | some i =>
        let c1 := match i.msgHandler with
          | some h => [Call.handler h [Arg.msg msg, Arg.user userData]]
          | none => []
        let c2 := match i.msgRouter with
          | some r => [Call.routerGo r (RType.ptr e) [Arg.msg msg, Arg.user userData]]
          | none => []
        (c1 ++ c2, none)
    | _ => ([], some "json message pointer required")

/-- The functions of Go's `encoding/json` and `reflect` the processor calls, for
Go values of type `V`.  They belong to the standard library and are a
parameter of the embedding. -/
structure JSONLib (V : Type) where
  /-- `json.Marshal(map[string]interface{}{msgID: msg})`, `msg` a pointer of
  type `t` to the given value (`none`: a nil pointer). -/
  marshalMap : String → RType → Option V → Except String Bytes
  /-- `json.Unmarshal(data, &m)` for `m map[string]json.RawMessage`: the
  entries of `m`. -/
  unmarshalMap : Bytes → Except String (List (String × Bytes))
  /-- The zero value `reflect.New(t)` points to. -/
  zero : RType → V
  /-- `json.Unmarshal(data, msg)`, `msg` pointing to a value of type `t` that
  holds `v`: the value afterwards and the error. -/
  unmarshalInto : RType → Bytes → V → V × Option String

/-- The heap of message values: an address is an index. -/
abbrev Heap (V : Type) := List V

/-- A Go call that returns or panics. -/
inductive Ret (α : Type) where
  | ret (a : α)
  | panic (why : String)
  deriving DecidableEq, Repr

/-- `p.Unmarshal(data)`: the pair returned and the heap afterwards. -/
def Unmarshal {V : Type} (lib : JSONLib V) (p : Processor) (h : Heap V) (data : Bytes) :
    Ret ((Iface × Option String) × Heap V) :=
  match lib.unmarshalMap data with
  | Except.error err => Ret.ret ((Iface.nil, some err), h)
  | Except.ok m =>
    if m.length ≠ 1 then Ret.ret ((Iface.nil, some "invalid json data"), h)
    else
      match m with
      | [] => Ret.panic "bug"
      | (msgID, data) :: _ =>
        match p.get msgID with
        | none => Ret.ret ((Iface.nil, some (notRegistered msgID)), h)
        | some i =>
          if i.msgRawHandler.isSome then Ret.ret ((Iface.raw msgID data, none), h)
          else
            match i.msgType with
            | RType.ptr e =>
              let r := lib.unmarshalInto e data (lib.zero e)
              Ret.ret ((Iface.val (RType.ptr e) (some h.length), r.2), h ++ [r.1])
            | _ => Ret.panic "reflect: Elem of invalid type"

/-- `p.Marshal(msg)`: the `[][]byte` (`none`: nil; an element `none`: a nil
slice) and the error. -/
def Marshal {V : Type} (lib : JSONLib V) (p : Processor) (h : Heap V) (msg : Iface) :
    Option (List (Option Bytes)) × Option String :=
  match msg with
  | Iface.val (RType.ptr e) a =>
    let msgID := e.Name
    match p.get msgID with
    | none => (none, some (notRegistered msgID))
    | some _ =>
      match lib.marshalMap msgID (RType.ptr e) (a.bind (fun i => h.get? i)) with
      | Except.ok data => (some [some data], none)
      | Except.error err => (some [none], some err)
  | _ => (none, some "json message pointer required")

/-! ### A small instance of `JSONLib`

An executable fragment of `encoding/json`, enough to run the processor on
concrete frames: message types are structs whose fields are unsigned integers,
a value is the list of its fields, strings carry no escapes. -/

/-- A struct value: field names with their values. -/
abbrev Fields := List (String × Nat)

/-- The character of a decimal digit. -/
def digitChar : Nat → Char
  | 0 => '0'
  | 1 => '1'
  | 2 => '2'
  | 3 => '3'
  | 4 => '4'
  | 5 => '5'
  | 6 => '6'
  | 7 => '7'
  | 8 => '8'
  | _ => '9'

/-- The decimal digits of `n` in front of `acc`; `fuel` bounds the number of
digits. -/
def natDigits : Nat → Nat → List Char → List Char
  | 0, _, acc => acc
  | fuel + 1, n, acc =>
    if n < 10 then digitChar n :: acc
    else natDigits fuel (n / 10) (digitChar (n % 10) :: acc)

/-- Text of an unsigned integer. -/
def encodeNat (n : Nat) : List Char :=
  natDigits (n + 1) n []

/-- Text of one member, such as `"N":7`. -/
def memberText (kv : String × Nat) : List Char :=
  '"' :: kv.1.toList ++ '"' :: ':' :: encodeNat kv.2

/-- Text of what follows a member: the further members, each after a comma,
and the closing brace. -/
def encodeRest : Fields → List Char
  | [] => ['}']
  | kv :: rest => ',' :: memberText kv ++ encodeRest rest

/-- Text of one struct value, such as `{"N":7,"M":0}`. -/
def encodeFields : Fields → Bytes
  | [] => ['{', '}']
  | kv :: rest => '{' :: memberText kv ++ encodeRest rest

/-- The characters up to the closing quote of a string, and what follows it. -/
def scanString : List Char → Option (List Char × List Char)
  | [] => none
  | c :: rest =>
    if c = '"' then some ([], rest)
    else (scanString rest).map (fun r => (c :: r.1, r.2))

/-- The text of one JSON value, up to the `,` or `}` that ends it at nesting
depth zero, and the rest starting at that character. -/
def scanValue : List Char → Nat → Bool → Option (List Char × List Char)
  | [], _, _ => none
  | c :: rest, depth, inStr =>
    if inStr then (scanValue rest depth (c != '"')).map (fun r => (c :: r.1, r.2))
    else if c = '"' then (scanValue rest depth true).map (fun r => (c :: r.1, r.2))
    else if c = '{' ∨ c = '[' then
      (scanValue rest (depth + 1) false).map (fun r => (c :: r.1, r.2))
    else if depth = 0 ∧ (c = ',' ∨ c = '}') then some ([], c :: rest)
    else if c = '}' ∨ c = ']' then
      (scanValue rest (depth - 1) false).map (fun r => (c :: r.1, r.2))
    else (scanValue rest depth false).map (fun r => (c :: r.1, r.2))

/-- The members of an object whose opening brace has been read: a quoted key, a
colon, a value, then a comma and further members or the closing brace at the
end of the text. -/
def scanMembers : Nat → List Char → Option (List (String × Bytes))
  | 0, _ => none
  | _ + 1, [] => none
  | fuel + 1, c :: r =>
    if c ≠ '"' then none
    else
      match scanString r with
      | none => none
      | some (_, []) => none
      | some (k, c1 :: r2) =>
        if c1 ≠ ':' then none
        else
          match scanValue r2 0 false with
          | none => none
          | some (_, []) => none
          | some (v, c3 :: r4) =>
            if v = [] then none
            else if c3 = '}' then (if r4 = [] then some [(String.mk k, v)] else none)
            else if c3 = ',' then
              (scanMembers fuel r4).map (fun ms => (String.mk k, v) :: ms)
            else none

/-- Insertion into a Go map kept as an association list: a key already present
takes the new value. -/
def mapSet {α : Type} (m : List (String × α)) (k : String) (a : α) : List (String × α) :=
  if (m.lookup k).isSome then m.map (fun kv => if kv.1 = k then (k, a) else kv)
  else m ++ [(k, a)]

/-- The members of an object, as a Go map; `null` is the nil map. -/
def parseObject (data : Bytes) : Except String (List (String × Bytes)) :=
  if data = ['n', 'u', 'l', 'l'] then Except.ok []
  else if data = ['{', '}'] then Except.ok []
  else
    match data with
    | [] => Except.error "unexpected end of JSON input"
    | c :: r =>
      if c = '{' then
        match scanMembers r.length r with
        | some ms => Except.ok (ms.foldl (fun m kv => mapSet m kv.1 kv.2) [])
        | none => Except.error "invalid character"
      else Except.error "cannot unmarshal into Go value of type map"

/-- The number a run of decimal digits denotes. -/
def digitsVal (s : List Char) : Nat :=
  s.foldl (fun n c => 10 * n + (c.toNat - 48)) 0

/-- A JSON number that is a run of decimal digits. -/
def parseNat (s : List Char) : Option Nat :=
  if s = [] ∨ s.all Char.isDigit = false then none
  else some (digitsVal s)

/-- Decode the members of an object into a struct value: a member that names
a field sets it, any other member is skipped; the first bad number stops the
decoding with what was set so far. -/
def decodeFields : List (String × Bytes) → Fields → Fields × Option String
  | [], v => (v, none)
  | (k, raw) :: ms, v =>
    if (v.lookup k).isSome then
      match parseNat raw with
      | some n => decodeFields ms (mapSet v k n)
      | none => (v, some "cannot unmarshal into Go struct field of type uint")
    else decodeFields ms v

/-- The instance: `decl` gives the field names of each struct type. -/
def miniJSON (decl : RType → List String) : JSONLib Fields where
  marshalMap := fun msgID _ v =>
    Except.ok (['{', '"'] ++ msgID.toList ++ ['"', ':'] ++
      (match v with
       | some fs => encodeFields fs
       | none => ['n', 'u', 'l', 'l']) ++ ['}'])
  unmarshalMap := parseObject
  zero := fun t => (decl t).map (fun k => (k, 0))
  unmarshalInto := fun _ data v =>
    match parseObject data with
    | Except.ok ms => decodeFields ms v
    | Except.error err => (v, some err)

/-- A character that the value scanner passes over outside strings. -/
def plainChar (c : Char) : Prop :=
  c ≠ '"' ∧ c ≠ '{' ∧ c ≠ '[' ∧ c ≠ '}' ∧ c ≠ ']' ∧ c ≠ ','

/-- A Go identifier, as far as ASCII goes: letters, digits and underscores. -/
def isIdent (s : String) : Bool :=
  s.toList.all (fun c => c.isAlphanum || c == '_')

/-- Package `msg` of an application: the struct `Hello` with one field. -/
def helloType : RType := RType.named "server/msg" "Hello"

/-- Field names of the example types. -/
def exampleDecl (t : RType) : List String :=
  if t = helloType then ["N"] else []

/-- A processor with `Hello` registered. -/
def helloProcessor : Processor :=
  { msgInfo := [("Hello", { msgType := RType.ptr helloType, msgRouter := none,
                            msgHandler := none, msgRawHandler := none })] }

/-- The processor `helloProcessor` after `SetRawHandler("Hello", h)` with the
handler number 9. -/
def rawProcessor : Processor :=
  { msgInfo := [("Hello", { msgType := RType.ptr helloType, msgRouter := none,
                            msgHandler := none, msgRawHandler := some 9 })] }

/-- The processor `helloProcessor` after `SetHandler` with the handler number 1
and `SetRouter` with the router number 2. -/
def routedProcessor : Processor :=
  { msgInfo := [("Hello", { msgType := RType.ptr helloType, msgRouter := some 2,
                            msgHandler := some 1, msgRawHandler := none })] }

/-- The frame `{"Hello":{"N":7}}`. -/
def helloFrame : Bytes :=
  ['{', '"', 'H', 'e', 'l', 'l', 'o', '"', ':', '{', '"', 'N', '"', ':', '7', '}', '}']

/-- The frame `{"Bye":{}}`. -/
def byeFrame : Bytes :=
  ['{', '"', 'B', 'y', 'e', '"', ':', '{', '}', '}']

/-- The frame `{"Hello":{"N":7},"Bye":{}}`. -/
def twoKeyFrame : Bytes :=
  ['{', '"', 'H', 'e', 'l', 'l', 'o', '"', ':', '{', '"', 'N', '"', ':', '7', '}', ',',
   '"', 'B', 'y', 'e', '"', ':', '{', '}', '}']

end Leaf

namespace Leaf

/-! ## Invariant of the connection -/

theorem inv_new (n : Nat) : Inv (newTCPConn n) := by
  constructor <;> simp [newTCPConn]

theorem doDestroy_inv {c : TCPConn} (h : Inv c) :
    ∃ c1, doDestroy c = Outcome.ok c1 ∧ Inv c1 ∧ c1.closeFlag = true ∧
      c1.writeChan = c.writeChan ∧ c1.drain = c.drain ∧ c1.chanCap = c.chanCap ∧
      c1.conn = c.conn ++ [SockEv.setLinger 0, SockEv.close] ∧
      c1.chanClosed = (c.chanClosed || !c.closeFlag) := by
  obtain ⟨h1, h2, h3, h4, h5⟩ := h
  rcases c with ⟨sk, q, cap, cl, n, fl, pc⟩
  cases fl <;> cases cl <;> simp_all [doDestroy, chanClose] <;> constructor <;> simp_all

theorem Write_inv {c : TCPConn} (h : Inv c) (b : Option Bytes) :
    ∃ c1, Write c b = Outcome.ok c1 ∧ Inv c1 := by
  unfold Write
  by_cases hf : c.closeFlag = true
  · exact ⟨c, by simp [hf], h⟩
  · cases b with
    | none => exact ⟨c, by simp, h⟩
    | some b =>
      have hf' : c.closeFlag = false := by simpa using hf
      simp only [hf', Option.isNone_some, Bool.or_self, Bool.false_eq_true, if_false, doWrite]
      by_cases hl : c.writeChan.length = c.chanCap
      · obtain ⟨c1, e, i, _⟩ := doDestroy_inv h
        exact ⟨c1, by simp [hl, e], i⟩
      · have hc : c.chanClosed = false := by
          cases hcl : c.chanClosed with
          | false => rfl
          | true => have := h.closed_flag hcl; simp_all
        have hlt : c.writeChan.length < c.chanCap := lt_of_le_of_ne h.len_le hl
        refine ⟨{ c with writeChan := c.writeChan ++ [some b] }, by simp [hl, chanSend, hc, hlt], ?_⟩
        constructor
        · simp [hc]
        · simp; omega
        · simpa using h.closes
        · intro _ x hx
          simp only [List.mem_append, List.mem_singleton] at hx
          rcases hx with hx | hx
          · exact h.no_nil hf' x hx
          · simp [hx]
        · exact h.sock_open

theorem Close_inv {c : TCPConn} (h : Inv c) :
    ∃ c1, Close c = Outcome.ok c1 ∧ Inv c1 ∧ c1.closeFlag = true := by
  unfold Close
  by_cases hf : c.closeFlag = true
  · exact ⟨c, by simp [hf], h, hf⟩
  · have hf' : c.closeFlag = false := by simpa using hf
    simp only [hf', Bool.false_eq_true, if_false, doWrite]
    by_cases hl : c.writeChan.length = c.chanCap
    · obtain ⟨c1, e, i, f, _⟩ := doDestroy_inv h
      refine ⟨{ c1 with closeFlag := true }, by simp [hl, e], ?_, rfl⟩
      have : ({ c1 with closeFlag := true } : TCPConn) = c1 := by
        rcases c1 with ⟨_, _, _, _, _, fl, _⟩
        simp at f; simp [f]
      rw [this]; exact i
    · have hc : c.chanClosed = false := by
        cases hcl : c.chanClosed with
        | false => rfl
        | true => have := h.closed_flag hcl; simp_all
      have hlt : c.writeChan.length < c.chanCap := lt_of_le_of_ne h.len_le hl
      refine ⟨{ c with writeChan := c.writeChan ++ [none], closeFlag := true },
        by simp [hl, chanSend, hc, hlt], ?_, rfl⟩
      constructor
      · simp
      · simp; omega
      · simpa using h.closes
      · simp
      · simp

theorem drainStep_inv {c c1 : TCPConn} (h : Inv c) (w : Bool) (e : drainStep c w = some c1) :
    Inv c1 := by
  obtain ⟨h1, h2, h3, h4, h5⟩ := h
  rcases c with ⟨sk, q, cap, cl, n, fl, pc⟩
  cases pc
  · -- loop
    cases q with
    | nil =>
      cases cl <;> simp [drainStep] at e
      subst e
      constructor <;> simp_all
    | cons x rest =>
      cases x with
      | none =>
        simp [drainStep] at e
        subst e
        constructor <;> simp_all
        omega
      | some b =>
        simp [drainStep] at e
        subst e
        constructor
        · simpa using h1
        · simp at h2 ⊢; omega
        · simpa using h3
        · intro hf x hx
          simp at hf hx
          exact h4 hf x (by simp [hx])
        · intro hf hd
          simp at hf hd h5 ⊢
          exact h5 hf
  · simp [drainStep] at e
    subst e
    constructor <;> simp_all
  · simp [drainStep] at e
    subst e
    constructor <;> simp_all
  · simp [drainStep] at e

theorem step_inv {c : TCPConn} (h : Inv c) (op : Op) :
    ∃ c1, step c op = Outcome.ok c1 ∧ Inv c1 := by
  cases op with
  | write b => exact Write_inv h b
  | close => obtain ⟨c1, e, i, _⟩ := Close_inv h; exact ⟨c1, e, i⟩
  | destroy => obtain ⟨c1, e, i, _⟩ := doDestroy_inv h; exact ⟨c1, e, i⟩
  | drain w =>
    refine ⟨(drainStep c w).getD c, rfl, ?_⟩
    cases e : drainStep c w with
    | none => simpa using h
    | some c1 => simpa using drainStep_inv h w e

theorem run_inv (ops : List Op) : ∀ {c : TCPConn}, Inv c →
    ∃ c1, run c ops = Outcome.ok c1 ∧ Inv c1 := by
  induction ops with
  | nil => intro c h; exact ⟨c, rfl, h⟩
  | cons op ops ih =>
    intro c h
    obtain ⟨c1, e, i⟩ := step_inv h op
    obtain ⟨c2, e2, i2⟩ := ih i
    exact ⟨c2, by simp [run, e, e2], i2⟩

theorem reachable_inv {c : TCPConn} (h : Reachable c) : Inv c := by
  obtain ⟨n, ops, e⟩ := h
  obtain ⟨c1, e1, i⟩ := run_inv ops (inv_new n)
  rw [e] at e1
  cases e1
  exact i

theorem step_flag_mono {c c1 : TCPConn} {op : Op} (e : step c op = Outcome.ok c1)
    (hf : c.closeFlag = true) : c1.closeFlag = true := by
  rcases c with ⟨sk, q, cap, cl, n, fl, pc⟩
  simp only at hf
  subst hf
  cases op with
  | write b => simp [step, Write] at e; subst e; rfl
  | close => simp [step, Close] at e; subst e; rfl
  | destroy => simp [step, Destroy, doDestroy] at e; subst e; rfl
  | drain w =>
    simp only [step, Outcome.ok.injEq] at e
    subst e
    cases pc
    · cases q with
      | nil => cases cl <;> simp [drainStep]
      | cons x rest => cases x <;> simp [drainStep]
    all_goals simp [drainStep]

theorem run_flag_mono (ops : List Op) : ∀ {c c1 : TCPConn}, run c ops = Outcome.ok c1 →
    c.closeFlag = true → c1.closeFlag = true := by
  induction ops with
  | nil => intro c c1 e hf; simp [run] at e; subst e; exact hf
  | cons op ops ih =>
    intro c c1 e hf
    simp only [run] at e
    cases hs : step c op with
    | ok c2 => rw [hs] at e; exact ih e (step_flag_mono hs hf)
    | panic w => rw [hs] at e; cases e
    | block => rw [hs] at e; cases e

theorem chanSend_ok {c c1 : TCPConn} {b : Option Bytes} (e : chanSend c b = Outcome.ok c1) :
    c.chanClosed = false ∧ c.writeChan.length < c.chanCap ∧
      c1 = { c with writeChan := c.writeChan ++ [b] } := by
  rcases c with ⟨sk, q, cap, cl, n, fl, pc⟩
  cases cl
  · by_cases hl : q.length < cap
    · simp [chanSend, hl] at e
      exact ⟨rfl, hl, e.symm⟩
    · simp [chanSend, hl] at e
  · simp [chanSend] at e

theorem doDestroy_ok {c c1 : TCPConn} (e : doDestroy c = Outcome.ok c1) :
    c1.writeChan = c.writeChan ∧ c1.closeFlag = true ∧ c1.drain = c.drain ∧
      c1.conn = c.conn ++ [SockEv.setLinger 0, SockEv.close] := by
  rcases c with ⟨sk, q, cap, cl, n, fl, pc⟩
  cases fl <;> cases cl <;> simp [doDestroy, chanClose] at e <;> subst e <;> simp

theorem doWrite_ok {c c1 : TCPConn} {b : Option Bytes} (e : doWrite c b = Outcome.ok c1) :
    (c.writeChan.length = c.chanCap ∧ doDestroy c = Outcome.ok c1) ∨
      (c.writeChan.length ≠ c.chanCap ∧ chanSend c b = Outcome.ok c1) := by
  unfold doWrite at e
  by_cases hl : c.writeChan.length = c.chanCap
  · left; simp [hl] at e; exact ⟨hl, e⟩
  · right; simp [hl] at e; exact ⟨hl, e⟩

theorem Close_ok {c c1 : TCPConn} (e : Close c = Outcome.ok c1) :
    (c.closeFlag = true ∧ c1 = c) ∨
      (c.closeFlag = false ∧ ∃ c2, doWrite c none = Outcome.ok c2 ∧
        c1 = { c2 with closeFlag := true }) := by
  unfold Close at e
  by_cases hf : c.closeFlag = true
  · left; simp [hf] at e; exact ⟨hf, e.symm⟩
  · right
    simp only [hf, if_false] at e
    refine ⟨by simpa using hf, ?_⟩
    cases hw : doWrite c none with
    | ok c2 => rw [hw] at e; simp at e; exact ⟨c2, rfl, e.symm⟩
    | panic w => rw [hw] at e; simp at e
    | block => rw [hw] at e; simp at e

theorem Write_ok {c c1 : TCPConn} {b : Option Bytes} (e : Write c b = Outcome.ok c1) :
    ((c.closeFlag = true ∨ b = none) ∧ c1 = c) ∨
      (c.closeFlag = false ∧ b ≠ none ∧ doWrite c b = Outcome.ok c1) := by
  unfold Write at e
  by_cases hf : c.closeFlag = true
  · left; simp [hf] at e; exact ⟨Or.inl hf, e.symm⟩
  · cases b with
    | none => left; simp at e; exact ⟨Or.inr rfl, e.symm⟩
    | some b => right; simp [hf] at e; exact ⟨by simpa using hf, by simp, e⟩

theorem drainStep_len {c c1 : TCPConn} {w : Bool} (e : drainStep c w = some c1) :
    c1.writeChan.length ≤ c.writeChan.length := by
  rcases c with ⟨sk, q, cap, cl, n, fl, pc⟩
  cases pc
  · cases q with
    | nil => cases cl <;> simp [drainStep] at e; subst e; simp
    | cons x rest => cases x <;> simp [drainStep] at e <;> subst e <;> simp
  · simp [drainStep] at e; subst e; simp
  · simp [drainStep] at e; subst e; simp
  · simp [drainStep] at e

theorem step_send {c c1 : TCPConn} {op : Op} (e : step c op = Outcome.ok c1)
    (hg : c1.writeChan.length = c.writeChan.length + 1) :
    c.chanClosed = false ∧ c.writeChan.length < c.chanCap := by
  have key : ∀ b, doWrite c b = Outcome.ok c1 →
      c.chanClosed = false ∧ c.writeChan.length < c.chanCap := by
    intro b hw
    rcases doWrite_ok hw with ⟨_, hd⟩ | ⟨_, hs⟩
    · have := (doDestroy_ok hd).1
      rw [this] at hg; omega
    · exact ⟨(chanSend_ok hs).1, (chanSend_ok hs).2.1⟩
  cases op with
  | write b =>
    rcases Write_ok e with ⟨_, h1⟩ | ⟨_, _, hw⟩
    · subst h1; omega
    · exact key b hw
  | close =>
    rcases Close_ok e with ⟨_, h1⟩ | ⟨_, c2, hw, h1⟩
    · subst h1; omega
    · subst h1
      rcases doWrite_ok hw with ⟨_, hd⟩ | ⟨_, hs⟩
      · have := (doDestroy_ok hd).1
        simp only [this] at hg; omega
      · exact ⟨(chanSend_ok hs).1, (chanSend_ok hs).2.1⟩
  | destroy =>
    have := (doDestroy_ok e).1
    rw [this] at hg; omega
  | drain w =>
    simp only [step, Outcome.ok.injEq] at e
    subst e
    cases hd : drainStep c w with
    | none => simp [hd] at hg
    | some c2 =>
      have := drainStep_len hd
      simp [hd] at hg; omega

theorem closeCalls_destroyed (l : List SockEv) :
    List.count SockEv.close (l ++ [SockEv.setLinger 0, SockEv.close])
      = List.count SockEv.close l + 1 := by
  rw [List.count_append]
  rfl

theorem doDestroy_calls {c c1 : TCPConn} (e : doDestroy c = Outcome.ok c1) :
    closeCalls c1 = closeCalls c + 1 ∧ closeBudget c1 ≤ closeBudget c + 1 ∧
      (c.closeFlag = false → closeBudget c1 ≤ closeBudget c) := by
  obtain ⟨_, hf, hd, hc⟩ := doDestroy_ok e
  have h1 : closeCalls c1 = closeCalls c + 1 := by
    simp only [closeCalls, hc]; exact closeCalls_destroyed _
  refine ⟨h1, ?_, ?_⟩
  · simp only [closeBudget, h1, hf, hd, if_true]
    split <;> omega
  · intro h0
    simp only [closeBudget, h1, hf, hd, h0, if_true]
    simp

theorem doWrite_calls {c c1 : TCPConn} {b : Option Bytes} (e : doWrite c b = Outcome.ok c1)
    (h0 : c.closeFlag = false) :
    closeCalls c ≤ closeCalls c1 ∧ closeBudget c1 ≤ closeBudget c ∧
      closeBudget { c1 with closeFlag := true } ≤ closeBudget c := by
  rcases doWrite_ok e with ⟨_, hd⟩ | ⟨_, hs⟩
  · obtain ⟨h1, _, h3⟩ := doDestroy_calls hd
    have := h3 h0
    obtain ⟨_, hf, _, _⟩ := doDestroy_ok hd
    refine ⟨by omega, this, ?_⟩
    have hc : ({ c1 with closeFlag := true } : TCPConn) = c1 := by
      rcases c1 with ⟨_, _, _, _, _, fl, _⟩
      simp at hf; simp [hf]
    rw [hc]; exact this
  · obtain ⟨_, _, h⟩ := chanSend_ok hs
    subst h
    simp only [closeBudget, closeCalls, h0]
    refine ⟨le_refl _, le_refl _, ?_⟩
    simp

theorem drainStep_calls {c c1 : TCPConn} {w : Bool} (e : drainStep c w = some c1) :
    closeCalls c ≤ closeCalls c1 ∧ closeBudget c1 ≤ closeBudget c := by
  rcases c with ⟨sk, q, cap, cl, n, fl, pc⟩
  cases pc
  · cases q with
    | nil =>
      cases cl <;> simp [drainStep] at e
      subst e; simp [closeCalls, closeBudget]
    | cons x rest =>
      cases x with
      | none => simp [drainStep] at e; subst e; simp [closeCalls, closeBudget]
      | some b =>
        simp [drainStep] at e; subst e
        simp only [closeCalls, closeBudget, List.count_append]
        have : List.count SockEv.close [SockEv.write b (w && !sockClosed
            { conn := sk, writeChan := some b :: rest, chanCap := cap, chanClosed := cl,
              chanCloses := n, closeFlag := fl, drain := DrainPC.loop })] = 0 := by
          simp [List.count_cons]
        rw [this]
        constructor
        · omega
        · split <;> split <;> simp
  · simp [drainStep] at e; subst e
    simp only [closeCalls, closeBudget, List.count_append]
    have : List.count SockEv.close [SockEv.close] = 1 := rfl
    rw [this]
    constructor
    · omega
    · simp only [reduceCtorEq, or_self, or_true, if_true, if_false]
      omega
  · simp [drainStep] at e; subst e
    simp only [closeCalls, closeBudget]
    cases fl <;> simp
  · simp [drainStep] at e

theorem step_calls {c c1 : TCPConn} {op : Op} (e : step c op = Outcome.ok c1) :
    closeCalls c + destroyCalls [op] ≤ closeCalls c1 ∧
      closeBudget c1 ≤ closeBudget c + destroyCalls [op] := by
  cases op with
  | write b =>
    have hz : destroyCalls [Op.write b] = 0 := by simp [destroyCalls, List.count_cons]
    rw [hz]
    rcases Write_ok e with ⟨_, h1⟩ | ⟨h0, _, hw⟩
    · subst h1; simp
    · obtain ⟨h1, h2, _⟩ := doWrite_calls hw h0
      omega
  | close =>
    have hz : destroyCalls [Op.close] = 0 := by simp [destroyCalls, List.count_cons]
    rw [hz]
    rcases Close_ok e with ⟨_, h1⟩ | ⟨h0, c2, hw, h1⟩
    · subst h1; simp
    · obtain ⟨h2, _, h3⟩ := doWrite_calls hw h0
      subst h1
      exact ⟨by simpa [closeCalls] using h2, by simpa using h3⟩
  | destroy =>
    have hz : destroyCalls [Op.destroy] = 1 := by simp [destroyCalls]
    rw [hz]
    obtain ⟨h1, h2, _⟩ := doDestroy_calls e
    omega
  | drain w =>
    have hz : destroyCalls [Op.drain w] = 0 := by simp [destroyCalls, List.count_cons]
    rw [hz]
    simp only [step, Outcome.ok.injEq] at e
    subst e
    cases hd : drainStep c w with
    | none => simp
    | some c2 => simpa using drainStep_calls hd

theorem run_calls (ops : List Op) : ∀ {c c1 : TCPConn}, run c ops = Outcome.ok c1 →
    closeCalls c + destroyCalls ops ≤ closeCalls c1 ∧
      closeBudget c1 ≤ closeBudget c + destroyCalls ops := by
  induction ops with
  | nil => intro c c1 e; simp [run] at e; subst e; simp [destroyCalls]
  | cons op ops ih =>
    intro c c1 e
    simp only [run] at e
    cases hs : step c op with
    | ok c2 =>
      rw [hs] at e
      obtain ⟨a1, a2⟩ := step_calls hs
      obtain ⟨b1, b2⟩ := ih e
      have hc : destroyCalls (op :: ops) = destroyCalls [op] + destroyCalls ops := by
        simp only [destroyCalls, List.count_cons, List.count_nil]; omega
      rw [hc]
      omega
    | panic w => rw [hs] at e; cases e
    | block => rw [hs] at e; cases e

theorem all_some_of_no_nil : ∀ (q : List (Option Bytes)), (∀ x ∈ q, x ≠ none) →
    ∃ bufs : List Bytes, q = bufs.map some
  | [], _ => ⟨[], rfl⟩
  | none :: _, h => absurd rfl (h none (by simp))
  | some b :: rest, h => by
    obtain ⟨bufs, e⟩ := all_some_of_no_nil rest (fun x hx => h x (by simp [hx]))
    exact ⟨b :: bufs, by simp [e]⟩

theorem drain_flush (bufs : List Bytes) : ∀ (sk : List SockEv) (cap n : Nat) (cl fl : Bool),
    SockEv.close ∉ sk →
    run { conn := sk, writeChan := bufs.map some ++ [none], chanCap := cap, chanClosed := cl,
          chanCloses := n, closeFlag := fl, drain := DrainPC.loop }
        (List.replicate (bufs.length + 3) (Op.drain true)) =
      Outcome.ok { conn := sk ++ bufs.map (fun b => SockEv.write b true) ++ [SockEv.close],
                   writeChan := [], chanCap := cap, chanClosed := cl, chanCloses := n,
                   closeFlag := true, drain := DrainPC.done } := by
  induction bufs with
  | nil =>
    intro sk cap n cl fl _
    simp [run, step, drainStep, List.replicate]
  | cons b bufs ih =>
    intro sk cap n cl fl hs
    have hs1 : SockEv.close ∉ sk ++ [SockEv.write b true] := by simp [hs]
    have := ih (sk ++ [SockEv.write b true]) cap n cl fl hs1
    simp only [List.length_cons, List.replicate_succ, run, step, drainStep, List.map_cons,
      List.cons_append, sockClosed, hs, decide_False, Bool.not_false, Bool.and_self,
      Option.getD_some, if_true] at this ⊢
    rw [this]
    simp

theorem run_append (a b : List Op) : ∀ (c : TCPConn),
    run c (a ++ b) = match run c a with
      | Outcome.ok c1 => run c1 b
      | o => o := by
  induction a with
  | nil => intro c; rfl
  | cons op a ih =>
    intro c
    simp only [List.cons_append, run]
    cases step c op with
    | ok c1 => exact ih c1
    | panic w => rfl
    | block => rfl

theorem run_done_stutter (j : Nat) (w : Bool) (c : TCPConn) (hd : c.drain = DrainPC.done) :
    run c (List.replicate j (Op.drain w)) = Outcome.ok c := by
  induction j with
  | zero => rfl
  | succ j ih =>
    have : drainStep c w = none := by simp [drainStep, hd]
    simp only [List.replicate_succ, run, step, this, Option.getD_none]
    exact ih

theorem run_skip_callers (ops : List Op) : ∀ (c : TCPConn), c.closeFlag = true →
    (∀ op ∈ ops, op = Op.drain true ∨ op = Op.close ∨ ∃ b, op = Op.write b) →
    run c ops = run c (List.replicate (ops.count (Op.drain true)) (Op.drain true)) := by
  induction ops with
  | nil => intro c _ _; rfl
  | cons op ops ih =>
    intro c hf hops
    have hrest : ∀ op ∈ ops, op = Op.drain true ∨ op = Op.close ∨ ∃ b, op = Op.write b :=
      fun o ho => hops o (List.mem_cons_of_mem _ ho)
    rcases hops op (List.mem_cons_self _ _) with h | h | ⟨b, h⟩
    · subst h
      have hs : step c (Op.drain true) = Outcome.ok ((drainStep c true).getD c) := rfl
      simp only [List.count_cons_self, List.replicate_succ, run, hs]
      exact ih _ (step_flag_mono hs hf) hrest
    · subst h
      have hs : step c Op.close = Outcome.ok c := by simp [step, Close, hf]
      have hc : List.count (Op.drain true) (Op.close :: ops) = List.count (Op.drain true) ops :=
        List.count_cons_of_ne (by simp) ops
      simp only [run, hs, hc]
      exact ih c hf hrest
    · subst h
      have hs : step c (Op.write b) = Outcome.ok c := by simp [step, Write, hf]
      have hc : List.count (Op.drain true) (Op.write b :: ops)
          = List.count (Op.drain true) ops :=
        List.count_cons_of_ne (by simp) ops
      simp only [run, hs, hc]
      exact ih c hf hrest

theorem step_conn_closed {c c1 : TCPConn} {op : Op} (e : step c op = Outcome.ok c1)
    (hc : SockEv.close ∈ c.conn) :
    SockEv.close ∈ c1.conn ∧
      ∀ b, SockEv.write b true ∈ c1.conn → SockEv.write b true ∈ c.conn := by
  have hdes : ∀ c2, doDestroy c = Outcome.ok c2 →
      SockEv.close ∈ c2.conn ∧
        ∀ b, SockEv.write b true ∈ c2.conn → SockEv.write b true ∈ c.conn := by
    intro c2 h2
    obtain ⟨_, _, _, hk⟩ := doDestroy_ok h2
    rw [hk]
    exact ⟨by simp, fun b hb => by simpa using hb⟩
  have hwr : ∀ b2 c2, doWrite c b2 = Outcome.ok c2 →
      SockEv.close ∈ c2.conn ∧
        ∀ b, SockEv.write b true ∈ c2.conn → SockEv.write b true ∈ c.conn := by
    intro b2 c2 h2
    rcases doWrite_ok h2 with ⟨_, hd⟩ | ⟨_, hs⟩
    · exact hdes c2 hd
    · obtain ⟨_, _, h3⟩ := chanSend_ok hs
      subst h3
      exact ⟨hc, fun b hb => hb⟩
  cases op with
  | write b2 =>
    rcases Write_ok e with ⟨_, h1⟩ | ⟨_, _, hw⟩
    · subst h1; exact ⟨hc, fun b hb => hb⟩
    · exact hwr b2 c1 hw
  | close =>
    rcases Close_ok e with ⟨_, h1⟩ | ⟨_, c2, hw, h1⟩
    · subst h1; exact ⟨hc, fun b hb => hb⟩
    · subst h1; exact hwr none c2 hw
  | destroy => exact hdes c1 e
  | drain w =>
    simp only [step, Outcome.ok.injEq] at e
    subst e
    rcases c with ⟨sk, q, cap, cl, n, fl, pc⟩
    simp only at hc
    cases pc
    · cases q with
      | nil => cases cl <;> simp [drainStep, hc]
      | cons x rest => cases x <;> simp [drainStep, hc, sockClosed]
    · simp [drainStep, hc]
    · simp [drainStep, hc]
    · simp [drainStep, hc]

theorem run_conn_closed (ops : List Op) : ∀ {c c1 : TCPConn}, run c ops = Outcome.ok c1 →
    SockEv.close ∈ c.conn →
    ∀ b, SockEv.write b true ∈ c1.conn → SockEv.write b true ∈ c.conn := by
  induction ops with
  | nil => intro c c1 e _ b hb; simp [run] at e; subst e; exact hb
  | cons op ops ih =>
    intro c c1 e hc b hb
    simp only [run] at e
    cases hs : step c op with
    | ok c2 =>
      rw [hs] at e
      obtain ⟨h1, h2⟩ := step_conn_closed hs hc
      exact h2 b (ih e h1 b hb)
    | panic w => rw [hs] at e; cases e
    | block => rw [hs] at e; cases e

theorem doDestroy_pending {c c1 : TCPConn} (e : doDestroy c = Outcome.ok c1) :
    closeCalls c1 + drainPending c1 = closeCalls c + drainPending c + 1 := by
  obtain ⟨h1, _, _⟩ := doDestroy_calls e
  obtain ⟨_, _, hd, _⟩ := doDestroy_ok e
  simp only [drainPending, hd, h1]
  omega

theorem doWrite_pending {c c1 : TCPConn} {b : Option Bytes} (e : doWrite c b = Outcome.ok c1) :
    closeCalls c + drainPending c ≤ closeCalls c1 + drainPending c1 ∧
      (c.writeChan.length < c.chanCap →
        closeCalls c1 + drainPending c1 = closeCalls c + drainPending c) := by
  rcases doWrite_ok e with ⟨hl, hd⟩ | ⟨_, hs⟩
  · have := doDestroy_pending hd
    exact ⟨by omega, fun h => by omega⟩
  · obtain ⟨_, _, h⟩ := chanSend_ok hs
    subst h
    exact ⟨le_refl _, fun _ => rfl⟩

theorem drainStep_pending {c c1 : TCPConn} {w : Bool} (e : drainStep c w = some c1) :
    closeCalls c1 + drainPending c1 = closeCalls c + drainPending c ∧
      c1.chanCap = c.chanCap := by
  rcases c with ⟨sk, q, cap, cl, n, fl, pc⟩
  cases pc
  · cases q with
    | nil =>
      cases cl <;> simp [drainStep] at e
      subst e; simp [closeCalls, drainPending]
    | cons x rest =>
      cases x with
      | none => simp [drainStep] at e; subst e; simp [closeCalls, drainPending]
      | some b =>
        simp [drainStep] at e; subst e
        simp only [closeCalls, drainPending, List.count_append, and_true]
        have : List.count SockEv.close [SockEv.write b (w && !sockClosed
            { conn := sk, writeChan := some b :: rest, chanCap := cap, chanClosed := cl,
              chanCloses := n, closeFlag := fl, drain := DrainPC.loop })] = 0 := by
          simp [List.count_cons]
        rw [this]
        split <;> simp
  · simp [drainStep] at e; subst e
    simp only [closeCalls, drainPending, List.count_append, and_true]
    have : List.count SockEv.close [SockEv.close] = 1 := rfl
    rw [this]
    simp
  · simp [drainStep] at e; subst e
    simp [closeCalls, drainPending]
  · simp [drainStep] at e

theorem step_pending {c c1 : TCPConn} {op : Op} (e : step c op = Outcome.ok c1) :
    closeCalls c + drainPending c + destroyCalls [op] ≤ closeCalls c1 + drainPending c1 := by
  cases op with
  | write b =>
    have hz : destroyCalls [Op.write b] = 0 := by simp [destroyCalls, List.count_cons]
    rw [hz]
    rcases Write_ok e with ⟨_, h1⟩ | ⟨_, _, hw⟩
    · subst h1; simp
    · exact (doWrite_pending hw).1
  | close =>
    have hz : destroyCalls [Op.close] = 0 := by simp [destroyCalls, List.count_cons]
    rw [hz]
    rcases Close_ok e with ⟨_, h1⟩ | ⟨_, c2, hw, h1⟩
    · subst h1; simp
    · subst h1
      exact (doWrite_pending hw).1
  | destroy =>
    have hz : destroyCalls [Op.destroy] = 1 := by simp [destroyCalls]
    rw [hz]
    exact le_of_eq (doDestroy_pending e).symm
  | drain w =>
    have hz : destroyCalls [Op.drain w] = 0 := by simp [destroyCalls, List.count_cons]
    rw [hz]
    simp only [step, Outcome.ok.injEq] at e
    subst e
    cases hd : drainStep c w with
    | none => simp
    | some c2 => simpa using le_of_eq (drainStep_pending hd).1.symm

theorem step_exact {c c1 : TCPConn} {op : Op} (e : step c op = Outcome.ok c1)
    (hop : ∀ b, op ≠ Op.write b)
    (hq : c.closeFlag = true ∨ c.writeChan.length < c.chanCap) :
    closeCalls c1 + drainPending c1 = closeCalls c + drainPending c + destroyCalls [op] ∧
      (c1.closeFlag = true ∨ c1.writeChan.length < c1.chanCap) := by
  cases op with
  | write b => exact absurd rfl (hop b)
  | close =>
    have hz : destroyCalls [Op.close] = 0 := by simp [destroyCalls, List.count_cons]
    rw [hz]
    rcases Close_ok e with ⟨_, h1⟩ | ⟨h0, c2, hw, h1⟩
    · subst h1; exact ⟨rfl, hq⟩
    · subst h1
      have hlt : c.writeChan.length < c.chanCap := by
        rcases hq with h | h
        · rw [h0] at h; cases h
        · exact h
      exact ⟨(doWrite_pending hw).2 hlt, Or.inl rfl⟩
  | destroy =>
    have hz : destroyCalls [Op.destroy] = 1 := by simp [destroyCalls]
    rw [hz]
    exact ⟨doDestroy_pending e, Or.inl (doDestroy_ok e).2.1⟩
  | drain w =>
    have hz : destroyCalls [Op.drain w] = 0 := by simp [destroyCalls, List.count_cons]
    rw [hz]
    have e0 := e
    simp only [step, Outcome.ok.injEq] at e
    subst e
    cases hd : drainStep c w with
    | none => simpa using hq
    | some c2 =>
      obtain ⟨h1, h2⟩ := drainStep_pending hd
      refine ⟨by simpa using h1, ?_⟩
      simp only [Option.getD_some]
      rcases hq with h | h
      · left
        have := step_flag_mono e0 h
        simpa [hd] using this
      · right
        have := drainStep_len hd
        omega

theorem run_pending (ops : List Op) : ∀ {c c1 : TCPConn}, run c ops = Outcome.ok c1 →
    closeCalls c + drainPending c + destroyCalls ops ≤ closeCalls c1 + drainPending c1 ∧
      ((∀ b, Op.write b ∉ ops) → (c.closeFlag = true ∨ c.writeChan.length < c.chanCap) →
        closeCalls c1 + drainPending c1
          = closeCalls c + drainPending c + destroyCalls ops) := by
  induction ops with
  | nil => intro c c1 e; simp [run] at e; subst e; simp [destroyCalls]
  | cons op ops ih =>
    intro c c1 e
    simp only [run] at e
    cases hs : step c op with
    | ok c2 =>
      rw [hs] at e
      have a1 := step_pending hs
      obtain ⟨b1, b2⟩ := ih e
      have hc : destroyCalls (op :: ops) = destroyCalls [op] + destroyCalls ops := by
        simp only [destroyCalls, List.count_cons, List.count_nil]; omega
      rw [hc]
      refine ⟨by omega, ?_⟩
      intro hw hq
      have hop : ∀ b, op ≠ Op.write b := fun b h => hw b (by simp [h])
      obtain ⟨x1, x2⟩ := step_exact hs hop hq
      have := b2 (fun b h => hw b (List.mem_cons_of_mem _ h)) x2
      omega
    | panic w => rw [hs] at e; cases e
    | block => rw [hs] at e; cases e

theorem run_flag_set (ops : List Op) : ∀ {c c1 : TCPConn}, run c ops = Outcome.ok c1 →
    (Op.close ∈ ops ∨ Op.destroy ∈ ops) → c1.closeFlag = true := by
  induction ops with
  | nil => intro c c1 _ h; simp at h
  | cons op ops ih =>
    intro c c1 e h
    simp only [run] at e
    cases hs : step c op with
    | ok c2 =>
      rw [hs] at e
      by_cases hop : op = Op.close ∨ op = Op.destroy
      · have hf : c2.closeFlag = true := by
          rcases hop with h1 | h1
          · subst h1
            rcases Close_ok hs with ⟨hf, h2⟩ | ⟨_, c3, _, h2⟩
            · subst h2; exact hf
            · subst h2; rfl
          · subst h1
            exact (doDestroy_ok hs).2.1
        exact run_flag_mono ops e hf
      · refine ih e ?_
        rcases h with h | h
        · left
          rcases List.mem_cons.mp h with h1 | h1
          · exact absurd (Or.inl h1.symm) hop
          · exact h1
        · right
          rcases List.mem_cons.mp h with h1 | h1
          · exact absurd (Or.inr h1.symm) hop
          · exact h1
    | panic w => rw [hs] at e; cases e
    | block => rw [hs] at e; cases e

theorem doDestroy_closed {c c1 : TCPConn} (e : doDestroy c = Outcome.ok c1) :
    c1.chanClosed = (c.chanClosed || !c.closeFlag) := by
  rcases c with ⟨sk, q, cap, cl, n, fl, pc⟩
  cases fl <;> cases cl <;> simp [doDestroy, chanClose] at e <;> subst e <;> simp

theorem live_new (n : Nat) : Live (newTCPConn n) := by
  intro h; simp [newTCPConn] at h

theorem doWrite_live {c c1 : TCPConn} {b : Option Bytes} (e : doWrite c b = Outcome.ok c1)
    (h0 : c.closeFlag = false) :
    c1.chanClosed = true ∨ (c1.closeFlag = false ∧ c1.writeChan = c.writeChan ++ [b]) := by
  rcases doWrite_ok e with ⟨_, hd⟩ | ⟨_, hs⟩
  · left
    rw [doDestroy_closed hd, h0]; simp
  · right
    obtain ⟨_, _, h⟩ := chanSend_ok hs
    subst h
    exact ⟨h0, rfl⟩

theorem drainStep_live {c c1 : TCPConn} {w : Bool} (hl : Live c)
    (e : drainStep c w = some c1) : Live c1 := by
  rcases c with ⟨sk, q, cap, cl, n, fl, pc⟩
  unfold Live at hl ⊢
  cases pc
  · cases q with
    | nil =>
      cases cl <;> simp [drainStep] at e
      subst e; simp
    | cons x rest =>
      cases x with
      | none => simp [drainStep] at e; subst e; simp
      | some b =>
        simp [drainStep] at e; subst e
        intro hf hd
        simp only at hf hd
        have := hl hf rfl
        simpa using this
  · simp [drainStep] at e; subst e; simp
  · simp [drainStep] at e; subst e; simp
  · simp [drainStep] at e

theorem step_live {c c1 : TCPConn} {op : Op} (hl : Live c) (e : step c op = Outcome.ok c1) :
    Live c1 := by
  cases op with
  | write b =>
    rcases Write_ok e with ⟨_, h1⟩ | ⟨h0, _, hw⟩
    · subst h1; exact hl
    · rcases doWrite_live hw h0 with h | ⟨h, _⟩
      · exact fun _ _ => Or.inl h
      · intro hf; rw [h] at hf; cases hf
  | close =>
    rcases Close_ok e with ⟨_, h1⟩ | ⟨h0, c2, hw, h1⟩
    · subst h1; exact hl
    · subst h1
      rcases doWrite_live hw h0 with h | ⟨_, h⟩
      · exact fun _ _ => Or.inl h
      · exact fun _ _ => Or.inr (by simp [h])
  | destroy =>
    have hc := doDestroy_closed e
    obtain ⟨hq, _, hd, _⟩ := doDestroy_ok e
    intro _ hloop
    cases hf : c.closeFlag with
    | false => left; rw [hc, hf]; simp
    | true =>
      rcases hl hf (by rw [← hd]; exact hloop) with h | h
      · left; rw [hc, h]; rfl
      · right; rw [hq]; exact h
  | drain w =>
    simp only [step, Outcome.ok.injEq] at e
    subst e
    cases hd : drainStep c w with
    | none => simpa using hl
    | some c2 => simpa using drainStep_live hl hd

theorem run_live (ops : List Op) : ∀ {c c1 : TCPConn}, Live c → run c ops = Outcome.ok c1 →
    Live c1 := by
  induction ops with
  | nil => intro c c1 hl e; simp [run] at e; subst e; exact hl
  | cons op ops ih =>
    intro c c1 hl e
    simp only [run] at e
    cases hs : step c op with
    | ok c2 => rw [hs] at e; exact ih (step_live hl hs) e
    | panic w => rw [hs] at e; cases e
    | block => rw [hs] at e; cases e

theorem reachable_live {c : TCPConn} (h : Reachable c) : Live c := by
  obtain ⟨n, ops, e⟩ := h
  exact run_live ops (live_new n) e

theorem drainStep_left {c : TCPConn} (w : Bool) (hf : c.closeFlag = true) (hl : Live c) :
    drainLeft ((drainStep c w).getD c) ≤ drainLeft c - 1 := by
  rcases c with ⟨sk, q, cap, cl, n, fl, pc⟩
  simp only at hf
  subst hf
  cases pc
  · cases q with
    | nil =>
      have := hl rfl rfl
      simp only [List.not_mem_nil, or_false] at this
      subst this
      simp [drainStep, drainLeft]
    | cons x rest =>
      cases x with
      | none => simp [drainStep, drainLeft]
      | some b =>
        simp only [drainStep, Option.getD_some, drainLeft]
        split <;> simp
  · simp [drainStep, drainLeft]
  · simp [drainStep, drainLeft]
  · simp [drainStep, drainLeft]

theorem step_left {c c1 : TCPConn} {op : Op} (hf : c.closeFlag = true) (hl : Live c)
    (e : step c op = Outcome.ok c1) : drainLeft c1 ≤ drainLeft c - drainSteps [op] := by
  cases op with
  | write b =>
    rcases Write_ok e with ⟨_, h1⟩ | ⟨h0, _, _⟩
    · subst h1; simp [drainSteps]
    · rw [hf] at h0; cases h0
  | close =>
    rcases Close_ok e with ⟨_, h1⟩ | ⟨h0, _, _, _⟩
    · subst h1; simp [drainSteps]
    · rw [hf] at h0; cases h0
  | destroy =>
    obtain ⟨hq, _, hd, _⟩ := doDestroy_ok e
    simp [drainSteps, drainLeft, hq, hd]
  | drain w =>
    simp only [step, Outcome.ok.injEq] at e
    subst e
    have : drainSteps [Op.drain w] = 1 := by simp [drainSteps]
    rw [this]
    exact drainStep_left w hf hl

theorem run_left (ops : List Op) : ∀ {c c1 : TCPConn}, c.closeFlag = true → Live c →
    run c ops = Outcome.ok c1 → drainLeft c1 ≤ drainLeft c - drainSteps ops := by
  induction ops with
  | nil => intro c c1 _ _ e; simp [run] at e; subst e; simp [drainSteps]
  | cons op ops ih =>
    intro c c1 hf hl e
    simp only [run] at e
    cases hs : step c op with
    | ok c2 =>
      rw [hs] at e
      have h1 := step_left hf hl hs
      have h2 := ih (step_flag_mono hs hf) (step_live hl hs) e
      have hc : drainSteps (op :: ops) = drainSteps [op] + drainSteps ops := by
        simp only [drainSteps, List.countP_cons, List.countP_nil]; omega
      rw [hc]
      omega
    | panic w => rw [hs] at e; cases e
    | block => rw [hs] at e; cases e

theorem drainLeft_zero {c : TCPConn} (h : drainLeft c = 0) : c.drain = DrainPC.done := by
  unfold drainLeft at h
  cases hd : c.drain <;> simp [hd] at h ⊢

theorem drainLeft_le (c : TCPConn) : drainLeft c ≤ c.writeChan.length + 3 := by
  unfold drainLeft
  cases c.drain <;> simp

/-! ## Claims about the connection -/

/-- C4: on a reachable open connection whose queue holds as many buffers as its
capacity, `Write` of a non-nil buffer returns without enqueuing it and destroys
the connection (linger disabled and socket closed, queue closed, `closeFlag`
set); after any further schedule, which never panics or blocks, every `Write`
returns with the connection state unchanged. -/
theorem C4_write_on_full_queue_destroys (c : TCPConn) (b : Bytes) (hr : Reachable c)
    (hopen : c.closeFlag = false) (hfull : c.writeChan.length = c.chanCap) :
    ∃ c1, Write c (some b) = Outcome.ok c1 ∧
      c1.writeChan = c.writeChan ∧
      c1.conn = c.conn ++ [SockEv.setLinger 0, SockEv.close] ∧
      c1.chanClosed = true ∧ c1.closeFlag = true ∧
      ∀ ops : List Op, ∃ c2, run c1 ops = Outcome.ok c2 ∧
        ∀ b2 : Option Bytes, Write c2 b2 = Outcome.ok c2 := by
  have hi := reachable_inv hr
  obtain ⟨c1, e, i1, f1, q1, _, _, k1, cl1⟩ := doDestroy_inv hi
  refine ⟨c1, ?_, q1, k1, ?_, f1, ?_⟩
  · simp [Write, hopen, doWrite, hfull, e]
  · simp [cl1, hopen]
  · intro ops
    obtain ⟨c2, e2, _⟩ := run_inv ops i1
    refine ⟨c2, e2, fun b2 => ?_⟩
    simp [Write, run_flag_mono ops e2 f1]

/-- Witness for C4: a connection of capacity one after one accepted write. -/
theorem C4_write_on_full_queue_destroys_witness :
    ∃ c1, Write { newTCPConn 1 with writeChan := [some ['a']] } (some ['b']) = Outcome.ok c1 ∧
      c1.writeChan = [some ['a']] ∧
      c1.conn = [] ++ [SockEv.setLinger 0, SockEv.close] ∧
      c1.chanClosed = true ∧ c1.closeFlag = true ∧
      ∀ ops : List Op, ∃ c2, run c1 ops = Outcome.ok c2 ∧
        ∀ b2 : Option Bytes, Write c2 b2 = Outcome.ok c2 :=
  C4_write_on_full_queue_destroys { newTCPConn 1 with writeChan := [some ['a']] } ['b']
    ⟨1, [Op.write (some ['a'])], by decide⟩ rfl rfl

/-- C6, as stated, fails: one `Destroy` followed by the exit of the drain
goroutine invokes `conn.Close()` twice, and so do two `Destroy` calls. -/
theorem C6_socket_close_invoked_twice :
    ((run (newTCPConn 1) [Op.destroy, Op.drain true, Op.drain true]).get?.map closeCalls
        = some 2) ∧
      ((run (newTCPConn 1) [Op.destroy, Op.destroy]).get?.map closeCalls = some 2) := by
  decide

/-- C6, amended: from any reachable connection every schedule of `Close` and
`Destroy` calls and drain steps (and `Write` calls) returns: no call panics or
blocks, and the queue is closed at most once.  `conn.Close()` is invoked once
by the drain goroutine when it leaves its loop, once more by every `Destroy`
call, and once more by at most one call that finds the queue of the open
connection full.  With the goroutine's outstanding invocation (`drainPending`)
counted in, the invocations grow by the number of `Destroy` calls or by one
more; by exactly the number of `Destroy` calls when the schedule has no `Write`
and the connection is closed already or has room in its queue, so that a
schedule of `Close` calls alone gives exactly one invocation.  After a `Close`
or `Destroy` call `closeFlag` is set, and from then on the goroutine cannot
stay parked: any further schedule with at least queue length plus three drain
steps ends with the goroutine finished, its `conn.Close()` made. -/
theorem C6_close_destroy_idempotent (c : TCPConn) (ops : List Op) (hr : Reachable c) :
    ∃ c1, run c ops = Outcome.ok c1 ∧ c1.chanCloses ≤ 1 ∧
      closeCalls c + destroyCalls ops ≤ closeCalls c1 ∧
      closeCalls c1 ≤ closeCalls c + destroyCalls ops + 2 ∧
      closeCalls c + drainPending c + destroyCalls ops ≤ closeCalls c1 + drainPending c1 ∧
      closeCalls c1 + drainPending c1 ≤ closeCalls c + drainPending c + destroyCalls ops + 1 ∧
      ((∀ b, Op.write b ∉ ops) → (c.closeFlag = true ∨ c.writeChan.length < c.chanCap) →
        closeCalls c1 + drainPending c1
          = closeCalls c + drainPending c + destroyCalls ops) ∧
      ((Op.close ∈ ops ∨ Op.destroy ∈ ops) → c1.closeFlag = true) ∧
      (c1.closeFlag = true → ∀ ops2 : List Op, c1.writeChan.length + 3 ≤ drainSteps ops2 →
        ∃ c2, run c1 ops2 = Outcome.ok c2 ∧ c2.drain = DrainPC.done ∧
          drainPending c2 = 0) := by
  obtain ⟨c1, e, i1⟩ := run_inv ops (reachable_inv hr)
  obtain ⟨h1, h2⟩ := run_calls ops e
  obtain ⟨h3, h4⟩ := run_pending ops e
  have hl1 : Live c1 := run_live ops (reachable_live hr) e
  refine ⟨c1, e, ?_, h1, ?_, h3, ?_, h4, run_flag_set ops e, ?_⟩
  · rw [i1.closes]; split <;> omega
  · have hb : closeBudget c ≤ closeCalls c + 2 := by
      simp only [closeBudget]; split <;> split <;> omega
    have hc : closeCalls c1 ≤ closeBudget c1 := by
      simp only [closeBudget]; omega
    omega
  · have hb : closeBudget c ≤ closeCalls c + drainPending c + 1 := by
      simp only [closeBudget, drainPending]; split <;> omega
    have hc : closeCalls c1 + drainPending c1 ≤ closeBudget c1 := by
      simp only [closeBudget, drainPending]; omega
    omega
  · intro hf ops2 hn
    obtain ⟨c2, e2, _⟩ := run_inv ops2 i1
    have := run_left ops2 hf hl1 e2
    have hle := drainLeft_le c1
    have hz : drainLeft c2 = 0 := by omega
    have hd := drainLeft_zero hz
    exact ⟨c2, e2, hd, by simp [drainPending, hd]⟩

/-- Witness for C6: `Close` on a fresh connection, then the drain goroutine
running to its end. -/
theorem C6_close_destroy_idempotent_witness :
    ∃ c1, run (newTCPConn 2) [Op.close, Op.drain true, Op.drain true, Op.drain true]
        = Outcome.ok c1 ∧ c1.chanCloses ≤ 1 ∧
      closeCalls (newTCPConn 2) +
          destroyCalls [Op.close, Op.drain true, Op.drain true, Op.drain true]
        ≤ closeCalls c1 ∧
      closeCalls c1 ≤ closeCalls (newTCPConn 2) +
          destroyCalls [Op.close, Op.drain true, Op.drain true, Op.drain true] + 2 ∧
      closeCalls (newTCPConn 2) + drainPending (newTCPConn 2) +
          destroyCalls [Op.close, Op.drain true, Op.drain true, Op.drain true]
        ≤ closeCalls c1 + drainPending c1 ∧
      closeCalls c1 + drainPending c1 ≤ closeCalls (newTCPConn 2) +
          drainPending (newTCPConn 2) +
          destroyCalls [Op.close, Op.drain true, Op.drain true, Op.drain true] + 1 ∧
      ((∀ b, Op.write b ∉ [Op.close, Op.drain true, Op.drain true, Op.drain true]) →
        ((newTCPConn 2).closeFlag = true ∨
          (newTCPConn 2).writeChan.length < (newTCPConn 2).chanCap) →
        closeCalls c1 + drainPending c1
          = closeCalls (newTCPConn 2) + drainPending (newTCPConn 2) +
            destroyCalls [Op.close, Op.drain true, Op.drain true, Op.drain true]) ∧
      ((Op.close ∈ [Op.close, Op.drain true, Op.drain true, Op.drain true] ∨
          Op.destroy ∈ [Op.close, Op.drain true, Op.drain true, Op.drain true]) →
        c1.closeFlag = true) ∧
      (c1.closeFlag = true → ∀ ops2 : List Op, c1.writeChan.length + 3 ≤ drainSteps ops2 →
        ∃ c2, run c1 ops2 = Outcome.ok c2 ∧ c2.drain = DrainPC.done ∧
          drainPending c2 = 0) :=
  C6_close_destroy_idempotent (newTCPConn 2)
    [Op.close, Op.drain true, Op.drain true, Op.drain true] ⟨2, [], rfl⟩

/-- C7, as stated, fails: when the queue is full, `Close` does not enqueue the
sentinel; it closes the socket at once and the queued buffer is never written. -/
theorem C7_close_on_full_queue_discards :
    (run (newTCPConn 1) [Op.write (some ['a']), Op.close]).get?.map
        (fun c => (c.writeChan, c.conn, c.chanClosed))
      = some ([some ['a']], [SockEv.setLinger 0, SockEv.close], true) := by
  decide

/-- C7, amended: take a reachable open connection.  If its queue holds fewer
buffers than its capacity, `Close` enqueues the nil sentinel behind the queued
buffers and sets `closeFlag`; if moreover the drain goroutine is still in its
loop (no socket write has failed), then along every schedule of further
`Write` and `Close` calls and drain steps with successful socket writes,
without `Destroy`, that lets the goroutine run to its end, the goroutine writes
exactly the queued buffers, in queue order, and only afterwards closes the
socket.  If its queue is full, `Close` enqueues nothing and destroys the
connection instead (linger disabled, socket closed, queue closed, `closeFlag`
set), and whatever runs afterwards no buffer is written to the socket any
more. -/
theorem C7_close_flushes_queue (c : TCPConn) (hr : Reachable c)
    (hopen : c.closeFlag = false) :
    (c.writeChan.length < c.chanCap →
      ∃ bufs : List Bytes, c.writeChan = bufs.map some ∧
        Close c = Outcome.ok { c with writeChan := c.writeChan ++ [none], closeFlag := true } ∧
        (c.drain = DrainPC.loop → ∀ ops : List Op,
          (∀ op ∈ ops, op = Op.drain true ∨ op = Op.close ∨ ∃ b, op = Op.write b) →
          bufs.length + 3 ≤ ops.count (Op.drain true) →
          run { c with writeChan := c.writeChan ++ [none], closeFlag := true } ops =
            Outcome.ok { c with
              conn := c.conn ++ bufs.map (fun b => SockEv.write b true) ++ [SockEv.close],
              writeChan := [], closeFlag := true, drain := DrainPC.done })) ∧
    (c.writeChan.length = c.chanCap →
      Close c = Outcome.ok { c with conn := c.conn ++ [SockEv.setLinger 0, SockEv.close],
                                    chanClosed := true, chanCloses := c.chanCloses + 1,
                                    closeFlag := true } ∧
      ∀ (ops : List Op) (c2 : TCPConn),
        run { c with conn := c.conn ++ [SockEv.setLinger 0, SockEv.close],
                     chanClosed := true, chanCloses := c.chanCloses + 1,
                     closeFlag := true } ops = Outcome.ok c2 →
        ∀ b, SockEv.write b true ∈ c2.conn → SockEv.write b true ∈ c.conn) := by
  have hi := reachable_inv hr
  have hc : c.chanClosed = false := by
    cases hcl : c.chanClosed with
    | false => rfl
    | true => have := hi.closed_flag hcl; simp_all
  constructor
  · intro hroom
    obtain ⟨bufs, hb⟩ := all_some_of_no_nil c.writeChan (hi.no_nil hopen)
    refine ⟨bufs, hb, ?_, ?_⟩
    · have hne : ¬ c.writeChan.length = c.chanCap := by omega
      simp [Close, hopen, doWrite, hne, chanSend, hc, hroom]
    · intro hloop ops hops hcount
      have hs := hi.sock_open hopen hloop
      rw [run_skip_callers ops _ rfl hops]
      obtain ⟨j, hj⟩ := Nat.exists_eq_add_of_le hcount
      rw [hj, List.replicate_add, run_append]
      rcases c with ⟨sk, q, cap, cl, n, fl, pc⟩
      simp only at hb hloop hs
      subst hb hloop
      rw [drain_flush bufs sk cap n cl true hs]
      exact run_done_stutter j true _ rfl
  · intro hfull
    refine ⟨?_, ?_⟩
    · simp [Close, hopen, doWrite, hfull, doDestroy, chanClose, hc]
    · intro ops c2 e b hb
      have := run_conn_closed ops e (by simp) b hb
      simpa using this

/-- Witness for C7: capacity three, two buffers queued. -/
theorem C7_close_flushes_queue_witness :
    ∃ bufs : List Bytes, [some ['a'], some ['b']] = bufs.map some ∧
      Close { newTCPConn 3 with writeChan := [some ['a'], some ['b']] } =
        Outcome.ok { newTCPConn 3 with writeChan := [some ['a'], some ['b']] ++ [none],
                                        closeFlag := true } ∧
      (DrainPC.loop = DrainPC.loop → ∀ ops : List Op,
        (∀ op ∈ ops, op = Op.drain true ∨ op = Op.close ∨ ∃ b, op = Op.write b) →
        bufs.length + 3 ≤ ops.count (Op.drain true) →
        run { newTCPConn 3 with writeChan := [some ['a'], some ['b']] ++ [none],
                                closeFlag := true } ops =
          Outcome.ok { newTCPConn 3 with
            conn := [] ++ bufs.map (fun b => SockEv.write b true) ++ [SockEv.close],
            writeChan := [], closeFlag := true, drain := DrainPC.done }) :=
  (C7_close_flushes_queue { newTCPConn 3 with writeChan := [some ['a'], some ['b']] }
    ⟨3, [Op.write (some ['a']), Op.write (some ['b'])], by decide⟩ rfl).1 (by decide)

/-- C10: every schedule of `Write`, `Close`, `Destroy` and drain steps from a
fresh connection returns (no send on a closed queue, no send on a full queue,
no second close of the queue), and the state it reaches satisfies "queue closed
implies `closeFlag` set", has closed the queue at most once and holds at most
`chanCap` buffers; every further step returns too, and one that enqueues a
buffer finds the queue open and below capacity. -/
theorem C10_queue_closed_implies_flag (n : Nat) (ops : List Op) :
    ∃ c, run (newTCPConn n) ops = Outcome.ok c ∧
      (c.chanClosed = true → c.closeFlag = true) ∧
      c.chanCloses ≤ 1 ∧
      c.writeChan.length ≤ c.chanCap ∧
      ∀ op : Op, ∃ c1, step c op = Outcome.ok c1 ∧
        (c1.writeChan.length = c.writeChan.length + 1 →
          c.chanClosed = false ∧ c.writeChan.length < c.chanCap) := by
  obtain ⟨c, e, i⟩ := run_inv ops (inv_new n)
  refine ⟨c, e, i.closed_flag, ?_, i.len_le, fun op => ?_⟩
  · rw [i.closes]; split <;> omega
  · obtain ⟨c1, e1, _⟩ := step_inv i op
    exact ⟨c1, e1, step_send e1⟩

/-- Witness for C10: two writes on a connection of capacity one, then `Close`
and `Destroy`. -/
theorem C10_queue_closed_implies_flag_witness :
    ∃ c, run (newTCPConn 1)
        [Op.write (some ['a']), Op.write (some ['b']), Op.close, Op.destroy] = Outcome.ok c ∧
      (c.chanClosed = true → c.closeFlag = true) ∧
      c.chanCloses ≤ 1 ∧
      c.writeChan.length ≤ c.chanCap ∧
      ∀ op : Op, ∃ c1, step c op = Outcome.ok c1 ∧
        (c1.writeChan.length = c.writeChan.length + 1 →
          c.chanClosed = false ∧ c.writeChan.length < c.chanCap) :=
  C10_queue_closed_implies_flag 1
    [Op.write (some ['a']), Op.write (some ['b']), Op.close, Op.destroy]

/-! ## The listener -/

theorem init_ok (m p : Int) :
    ∃ s0, TCPServer.init none m p true = Except.ok s0 ∧ 0 < s0.MaxConnNum ∧
      s0.conns = [] ∧ s0.tempDelay = 0 ∧ s0.accepting = true ∧
      s0.MaxConnNum = (if m ≤ 0 then 100 else m) := by
  refine ⟨_, rfl, ?_, rfl, rfl, rfl, rfl⟩
  simp only
  split <;> omega

theorem srvStep_bound (s : TCPServer) (op : SrvOp) (h0 : 0 ≤ s.MaxConnNum)
    (h : (s.conns.length : Int) ≤ s.MaxConnNum) :
    (srvStep s op).MaxConnNum = s.MaxConnNum ∧
      ((srvStep s op).conns.length : Int) ≤ s.MaxConnNum := by
  cases op with
  | accept r =>
    by_cases ha : s.accepting = true
    · cases r with
      | conn c =>
        by_cases hf : (s.conns.length : Int) ≥ s.MaxConnNum
        · simp [srvStep, ha, acceptIter, hf, h]
        · simp only [srvStep, ha, if_true, acceptIter, hf, if_false, true_and]
          by_cases hm : c ∈ s.conns
          · rw [List.length_insert_of_mem hm]; exact h
          · rw [List.length_insert_of_not_mem hm]; push_cast; omega
      | temporary => simp [srvStep, ha, acceptIter, h]
      | permanent => simp [srvStep, ha, acceptIter, h]
    · simp [srvStep, ha, h]
  | workerDone c =>
    by_cases hm : c ∈ s.agents
    · simp only [srvStep, hm, if_true, true_and]
      have := List.length_erase_le c s.conns
      omega
    · simp [srvStep, hm, h]
  | close => simp [srvStep, h0]

theorem srvRun_bound (ops : List SrvOp) : ∀ (s : TCPServer), 0 ≤ s.MaxConnNum →
    (s.conns.length : Int) ≤ s.MaxConnNum →
    (srvRun s ops).MaxConnNum = s.MaxConnNum ∧
      ((srvRun s ops).conns.length : Int) ≤ s.MaxConnNum := by
  induction ops with
  | nil => intro s _ h; exact ⟨rfl, h⟩
  | cons op ops ih =>
    intro s h0 h
    obtain ⟨a, b⟩ := srvStep_bound s op h0 h
    have := ih (srvStep s op) (by rw [a]; exact h0) (by rw [a]; exact b)
    simp only [srvRun, List.foldl_cons] at this ⊢
    rw [a] at this
    exact this

theorem wrapInt64_id {x : Int} (h0 : 0 ≤ x) (h1 : x < 2 ^ 63) : wrapInt64 x = x := by
  unfold wrapInt64
  norm_num at h1 ⊢
  omega

theorem nextDelay_zero : nextDelay 0 = min (5 * Millisecond * 2 ^ 0) (1 * Second) := by
  decide

theorem nextDelay_succ (i : Nat) :
    nextDelay (min (5 * Millisecond * 2 ^ i) (1 * Second))
      = min (5 * Millisecond * 2 ^ (i + 1)) (1 * Second) := by
  have hp : (1 : Int) ≤ 2 ^ i := by exact_mod_cast Nat.one_le_two_pow
  have hs : (2 : Int) ^ (i + 1) = 2 * 2 ^ i := by ring
  rw [hs]
  generalize (2 : Int) ^ i = a at hp
  simp only [Millisecond, Second]
  have hpos : 0 < min (5 * 1000000 * a) (1 * 1000000000) := by
    rw [lt_min_iff]; constructor <;> omega
  have hle : min (5 * 1000000 * a) (1 * 1000000000) ≤ 1000000000 := by
    have := min_le_right (5 * 1000000 * a) (1 * 1000000000)
    omega
  have hw : wrapInt64 (min (5 * 1000000 * a) (1 * 1000000000) * 2)
      = min (5 * 1000000 * a) (1 * 1000000000) * 2 := by
    apply wrapInt64_id
    · omega
    · norm_num; omega
  unfold nextDelay
  simp only [Millisecond, Second, hw, ne_of_gt hpos, if_false]
  rcases le_total (5 * 1000000 * a) (1 * 1000000000) with h | h
  · rw [min_eq_left h]
    split
    · rw [min_eq_right (by omega)]
    · rw [min_eq_left (by omega)]; ring
  · rw [min_eq_right h, min_eq_right (by omega)]
    norm_num

theorem temporary_run (k : Nat) : ∀ (s : TCPServer), s.accepting = true → s.tempDelay = 0 →
    (srvRun s (List.replicate k (SrvOp.accept AcceptResult.temporary))).accepting = true ∧
    (srvRun s (List.replicate k (SrvOp.accept AcceptResult.temporary))).slept
      = s.slept ++ (List.range k).map (fun i => min (5 * Millisecond * 2 ^ i) (1 * Second)) ∧
    (srvRun s (List.replicate k (SrvOp.accept AcceptResult.temporary))).tempDelay
      = (if k = 0 then 0 else min (5 * Millisecond * 2 ^ (k - 1)) (1 * Second)) := by
  induction k with
  | zero => intro s ha hd; simp [srvRun, ha, hd]
  | succ k ih =>
    intro s ha hd
    obtain ⟨a1, a2, a3⟩ := ih s ha hd
    rw [List.replicate_succ']
    simp only [srvRun, List.foldl_append, List.foldl_cons, List.foldl_nil] at a1 a2 a3 ⊢
    simp only [srvStep, a1, if_true, acceptIter, a2, a3, List.range_succ, List.map_append,
      List.map_cons, List.map_nil, List.append_assoc, true_and]
    cases k with
    | zero => simp [nextDelay_zero]
    | succ k => have := nextDelay_succ k; simpa using this

theorem srvStep_temporary (t : TCPServer) (ha : t.accepting = true) :
    (srvStep t (SrvOp.accept AcceptResult.temporary)).slept
      = t.slept ++ [nextDelay t.tempDelay] := by
  simp [srvStep, ha, acceptIter]

/-! ## Claims about the listener -/

/-- C5: a server whose `init` succeeded sets a positive `MaxConnNum`, and after
every sequence of accept-loop iterations, agent completions and `Close` the
live set holds at most `MaxConnNum` sockets; an accepted socket that finds the
live set at `MaxConnNum` is closed, and nothing else changes but the reset of
the back-off delay: the live set, the wrapped connections and the agents stay
as they were. -/
theorem C5_live_connections_bounded (m p : Int) (ops : List SrvOp) :
    ∃ s0, TCPServer.init none m p true = Except.ok s0 ∧
      ((srvRun s0 ops).conns.length : Int) ≤ (srvRun s0 ops).MaxConnNum ∧
      ∀ c : Conn, (srvRun s0 ops).accepting = true →
        ((srvRun s0 ops).conns.length : Int) = (srvRun s0 ops).MaxConnNum →
        srvStep (srvRun s0 ops) (SrvOp.accept (AcceptResult.conn c))
          = { srvRun s0 ops with tempDelay := 0,
                                 sockClosed := (srvRun s0 ops).sockClosed ++ [c] } := by
  obtain ⟨s0, e, hpos, hc, _, _, _⟩ := init_ok m p
  obtain ⟨a, b⟩ := srvRun_bound ops s0 (le_of_lt hpos) (by rw [hc]; simpa using le_of_lt hpos)
  refine ⟨s0, e, by rw [a]; exact b, ?_⟩
  intro c hacc hfull
  simp [srvStep, hacc, acceptIter, hfull]

/-- Witness for C5: cap one, two sockets accepted in a row. -/
theorem C5_live_connections_bounded_witness :
    ∃ s0, TCPServer.init none 1 0 true = Except.ok s0 ∧
      ((srvRun s0 [SrvOp.accept (AcceptResult.conn 7)]).conns.length : Int)
        ≤ (srvRun s0 [SrvOp.accept (AcceptResult.conn 7)]).MaxConnNum ∧
      ∀ c : Conn, (srvRun s0 [SrvOp.accept (AcceptResult.conn 7)]).accepting = true →
        ((srvRun s0 [SrvOp.accept (AcceptResult.conn 7)]).conns.length : Int)
          = (srvRun s0 [SrvOp.accept (AcceptResult.conn 7)]).MaxConnNum →
        srvStep (srvRun s0 [SrvOp.accept (AcceptResult.conn 7)])
            (SrvOp.accept (AcceptResult.conn c))
          = { srvRun s0 [SrvOp.accept (AcceptResult.conn 7)] with
                tempDelay := 0,
                sockClosed := (srvRun s0 [SrvOp.accept (AcceptResult.conn 7)]).sockClosed
                  ++ [c] } :=
  C5_live_connections_bounded 1 0 [SrvOp.accept (AcceptResult.conn 7)]

/-- C9: while the accept loop runs, a successful accept resets `tempDelay` to
zero; from a zero `tempDelay` (the start of the loop, or just after a
successful accept) `k` consecutive temporary errors sleep
`min (5ms * 2^i) 1s` for `i = 0, ..., k-1`, and the doubling that the next
error would perform stays inside `int64`; a temporary error right after a
successful accept sleeps 5ms. -/
theorem C9_accept_backoff (s : TCPServer) (hacc : s.accepting = true) :
    (∀ c : Conn, (srvStep s (SrvOp.accept (AcceptResult.conn c))).tempDelay = 0) ∧
    (s.tempDelay = 0 → ∀ k : Nat,
      (srvRun s (List.replicate k (SrvOp.accept AcceptResult.temporary))).slept
        = s.slept ++ (List.range k).map (fun i => min (5 * Millisecond * 2 ^ i) (1 * Second)) ∧
      0 ≤ (srvRun s (List.replicate k (SrvOp.accept AcceptResult.temporary))).tempDelay * 2 ∧
      (srvRun s (List.replicate k (SrvOp.accept AcceptResult.temporary))).tempDelay * 2
        < 2 ^ 63) ∧
    (∀ c : Conn,
      (srvRun s [SrvOp.accept (AcceptResult.conn c), SrvOp.accept AcceptResult.temporary]).slept
        = s.slept ++ [5 * Millisecond]) := by
  refine ⟨?_, ?_, ?_⟩
  · intro c
    simp only [srvStep, hacc, if_true, acceptIter]
    split <;> rfl
  · intro hd k
    obtain ⟨_, a2, a3⟩ := temporary_run k s hacc hd
    refine ⟨a2, ?_, ?_⟩
    · rw [a3]
      split
      · norm_num
      · have hp : (0 : Int) < 2 ^ (k - 1) := by positivity
        have : 0 ≤ min (5 * Millisecond * 2 ^ (k - 1)) (1 * Second) := by
          rw [le_min_iff]; constructor
          · simp only [Millisecond]; positivity
          · decide
        omega
    · rw [a3]
      split
      · norm_num
      · have := min_le_right (5 * Millisecond * 2 ^ (k - 1)) (1 * Second)
        simp only [Second] at this ⊢
        norm_num at this ⊢
        omega
  · intro c
    simp only [srvRun, List.foldl_cons, List.foldl_nil]
    have h1 : (srvStep s (SrvOp.accept (AcceptResult.conn c))).accepting = true := by
      simp only [srvStep, hacc, if_true, acceptIter]
      split <;> rfl
    have h2 : (srvStep s (SrvOp.accept (AcceptResult.conn c))).tempDelay = 0 := by
      simp only [srvStep, hacc, if_true, acceptIter]
      split <;> rfl
    have h3 : (srvStep s (SrvOp.accept (AcceptResult.conn c))).slept = s.slept := by
      simp only [srvStep, hacc, if_true, acceptIter]
      split <;> rfl
    have h4 : nextDelay 0 = 5 * Millisecond := by decide
    rw [srvStep_temporary _ h1, h2, h3, h4]

/-- Witness for C9: the server as `init` leaves it. -/
theorem C9_accept_backoff_witness :
    (∀ c : Conn, (srvStep server2 (SrvOp.accept (AcceptResult.conn c))).tempDelay = 0) ∧
    (server2.tempDelay = 0 → ∀ k : Nat,
      (srvRun server2 (List.replicate k (SrvOp.accept AcceptResult.temporary))).slept
        = server2.slept ++
          (List.range k).map (fun i => min (5 * Millisecond * 2 ^ i) (1 * Second)) ∧
      0 ≤ (srvRun server2
            (List.replicate k (SrvOp.accept AcceptResult.temporary))).tempDelay * 2 ∧
      (srvRun server2 (List.replicate k (SrvOp.accept AcceptResult.temporary))).tempDelay * 2
        < 2 ^ 63) ∧
    (∀ c : Conn,
      (srvRun server2
          [SrvOp.accept (AcceptResult.conn c), SrvOp.accept AcceptResult.temporary]).slept
        = server2.slept ++ [5 * Millisecond]) :=
  C9_accept_backoff server2 rfl

/-! ## The processor -/

theorem lookup_update (f : MsgInfo → MsgInfo) (k : String) :
    ∀ (l : List (String × MsgInfo)),
      (l.map (fun kv => if kv.1 = k then (kv.1, f kv.2) else kv)).lookup k
        = (l.lookup k).map f
  | [] => rfl
  | (k1, i1) :: l => by
    have ih := lookup_update f k l
    simp only [List.map_cons, List.lookup_cons]
    by_cases hk : k1 = k
    · subst hk; simp
    · have hk2 : (k == k1) = false := by
        simp only [beq_eq_false_iff_ne, ne_eq]
        exact fun h => hk h.symm
      simp only [hk, if_false, List.lookup_cons, hk2]
      exact ih

theorem get_update (p : Processor) (k : String) (f : MsgInfo → MsgInfo) :
    (p.update k f).get k = (p.get k).map f :=
  lookup_update f k p.msgInfo

/-! ## The JSON fragment reads back what it writes -/

theorem ident_noQuote {s : String} (h : isIdent s = true) : '"' ∉ s.toList := by
  intro hm
  have := List.all_eq_true.mp h _ hm
  revert this
  decide

theorem scanString_quote : ∀ (k t : List Char), '"' ∉ k →
    scanString (k ++ '"' :: t) = some (k, t)
  | [], t, _ => by simp [scanString]
  | c :: k, t, h => by
    have hc : c ≠ '"' := fun e => h (by simp [e])
    have hk : '"' ∉ k := fun e => h (by simp [e])
    simp [scanString, hc, scanString_quote k t hk]

theorem scanValue_inStr : ∀ (k t : List Char) (d : Nat), '"' ∉ k →
    scanValue (k ++ '"' :: t) d true
      = (scanValue t d false).map (fun r => (k ++ '"' :: r.1, r.2))
  | [], t, d, _ => by simp [scanValue]
  | c :: k, t, d, h => by
    have hc : c ≠ '"' := fun e => h (by simp [e])
    have hk : '"' ∉ k := fun e => h (by simp [e])
    have hb : (c != '"') = true := by simp [hc]
    simp [scanValue, hb, scanValue_inStr k t d hk, Function.comp_def]

theorem scanValue_str (k t : List Char) (d : Nat) (h : '"' ∉ k) :
    scanValue ('"' :: k ++ '"' :: t) d false
      = (scanValue t d false).map (fun r => ('"' :: k ++ '"' :: r.1, r.2)) := by
  simp [scanValue, scanValue_inStr k t d h, Function.comp_def]

theorem scanValue_plain : ∀ (s t : List Char) (d : Nat), (∀ c ∈ s, plainChar c) →
    scanValue (s ++ t) d false = (scanValue t d false).map (fun r => (s ++ r.1, r.2))
  | [], t, d, _ => by simp
  | c :: s, t, d, h => by
    obtain ⟨h1, h2, h3, h4, h5, h6⟩ := h c (by simp)
    have hs : ∀ c ∈ s, plainChar c := fun x hx => h x (by simp [hx])
    simp [scanValue, h1, h2, h3, h4, h5, h6, scanValue_plain s t d hs, Function.comp_def]

theorem scanValue_comma (t : List Char) (d : Nat) :
    scanValue (',' :: t) (d + 1) false
      = (scanValue t (d + 1) false).map (fun r => (',' :: r.1, r.2)) := by
  simp [scanValue]

theorem scanValue_colon (t : List Char) (d : Nat) :
    scanValue (':' :: t) d false
      = (scanValue t d false).map (fun r => (':' :: r.1, r.2)) := by
  simp [scanValue]

theorem digitChar_plain (d : Nat) : plainChar (digitChar d) ∧ (digitChar d).isDigit = true := by
  unfold digitChar plainChar
  split <;> decide

theorem digitChar_val {d : Nat} (h : d < 10) : (digitChar d).toNat - 48 = d := by
  interval_cases d <;> rfl

theorem natDigits_append : ∀ (fuel n : Nat) (acc : List Char),
    natDigits fuel n acc = natDigits fuel n [] ++ acc
  | 0, _, _ => rfl
  | fuel + 1, n, acc => by
    by_cases h : n < 10
    · simp [natDigits, h]
    · simp only [natDigits, h, if_false]
      rw [natDigits_append fuel (n / 10) (digitChar (n % 10) :: acc),
        natDigits_append fuel (n / 10) [digitChar (n % 10)]]
      simp

theorem natDigits_chars : ∀ (fuel n : Nat) (c : Char), c ∈ natDigits fuel n [] →
    plainChar c ∧ c.isDigit = true
  | 0, _, c, h => by simp [natDigits] at h
  | fuel + 1, n, c, h => by
    by_cases hn : n < 10
    · simp [natDigits, hn] at h
      subst h; exact digitChar_plain n
    · simp only [natDigits, hn, if_false] at h
      rw [natDigits_append] at h
      simp only [List.mem_append, List.mem_singleton] at h
      rcases h with h | h
      · exact natDigits_chars fuel (n / 10) c h
      · subst h; exact digitChar_plain _

theorem digitsVal_snoc (s : List Char) (c : Char) :
    digitsVal (s ++ [c]) = 10 * digitsVal s + (c.toNat - 48) := by
  simp [digitsVal, List.foldl_append]

theorem natDigits_val : ∀ (fuel n : Nat), n < fuel → digitsVal (natDigits fuel n []) = n
  | 0, _, h => by omega
  | fuel + 1, n, h => by
    by_cases hn : n < 10
    · simp [natDigits, hn, digitsVal, digitChar_val hn]
    · simp only [natDigits, hn, if_false]
      rw [natDigits_append, digitsVal_snoc, natDigits_val fuel (n / 10) (by omega),
        digitChar_val (Nat.mod_lt n (by decide))]
      omega

theorem natDigits_ne_nil (fuel n : Nat) : natDigits (fuel + 1) n [] ≠ [] := by
  by_cases hn : n < 10
  · simp [natDigits, hn]
  · simp only [natDigits, hn, if_false]
    rw [natDigits_append]
    simp

theorem encodeNat_ne_nil (n : Nat) : encodeNat n ≠ [] :=
  natDigits_ne_nil n n

theorem encodeNat_plain (n : Nat) : ∀ c ∈ encodeNat n, plainChar c :=
  fun c h => (natDigits_chars (n + 1) n c h).1

theorem parseNat_encodeNat (n : Nat) : parseNat (encodeNat n) = some n := by
  have h1 : (encodeNat n).all Char.isDigit = true :=
    List.all_eq_true.mpr (fun c h => (natDigits_chars (n + 1) n c h).2)
  have h2 : digitsVal (encodeNat n) = n := natDigits_val (n + 1) n (by omega)
  simp [parseNat, encodeNat_ne_nil, h1, h2]

theorem scanValue_member (kv : String × Nat) (t : List Char) (d : Nat)
    (h : '"' ∉ kv.1.toList) :
    scanValue (memberText kv ++ t) d false
      = (scanValue t d false).map (fun r => (memberText kv ++ r.1, r.2)) := by
  have e : memberText kv ++ t = '"' :: kv.1.toList ++ '"' :: (':' :: (encodeNat kv.2 ++ t)) := by
    simp [memberText]
  rw [e, scanValue_str _ _ _ h, scanValue_colon, scanValue_plain _ _ _ (encodeNat_plain kv.2)]
  simp [memberText, Function.comp_def]

theorem scanValue_rest : ∀ (rest : Fields) (t : List Char),
    (∀ kv ∈ rest, '"' ∉ kv.1.toList) →
    scanValue (encodeRest rest ++ '}' :: t) 1 false = some (encodeRest rest, '}' :: t)
  | [], t, _ => by simp [encodeRest, scanValue]
  | kv :: rest, t, h => by
    have e : encodeRest (kv :: rest) ++ '}' :: t
        = ',' :: (memberText kv ++ (encodeRest rest ++ '}' :: t)) := by
      simp [encodeRest]
    rw [e, scanValue_comma, scanValue_member kv _ _ (h kv (by simp)),
      scanValue_rest rest t (fun x hx => h x (by simp [hx]))]
    simp [encodeRest]

theorem scanValue_fields (v : Fields) (t : List Char) (h : ∀ kv ∈ v, '"' ∉ kv.1.toList) :
    scanValue (encodeFields v ++ '}' :: t) 0 false = some (encodeFields v, '}' :: t) := by
  cases v with
  | nil => simp [encodeFields, scanValue]
  | cons kv rest =>
    have e : encodeFields (kv :: rest) ++ '}' :: t
        = '{' :: (memberText kv ++ (encodeRest rest ++ '}' :: t)) := by
      simp [encodeFields]
    have e1 : scanValue ('{' :: (memberText kv ++ (encodeRest rest ++ '}' :: t))) 0 false
        = (scanValue (memberText kv ++ (encodeRest rest ++ '}' :: t)) 1 false).map
            (fun r => ('{' :: r.1, r.2)) := by
      simp [scanValue]
    rw [e, e1, scanValue_member kv _ _ (h kv (by simp)),
      scanValue_rest rest t (fun x hx => h x (by simp [hx]))]
    simp [encodeFields]

theorem scanValue_number (n : Nat) (rest : Fields) :
    scanValue (encodeNat n ++ encodeRest rest) 0 false = some (encodeNat n, encodeRest rest) := by
  rw [scanValue_plain _ _ _ (encodeNat_plain n)]
  cases rest with
  | nil => simp [encodeRest, scanValue]
  | cons kv rest => simp [encodeRest, scanValue]

theorem encodeFields_ne_nil (v : Fields) : encodeFields v ≠ [] := by
  cases v <;> simp [encodeFields]

theorem string_mk_toList (s : String) : String.mk s.toList = s := rfl

theorem scanMembers_fields : ∀ (rest : Fields) (kv : String × Nat) (fuel : Nat),
    rest.length < fuel → (∀ x ∈ kv :: rest, '"' ∉ x.1.toList) →
    scanMembers fuel (memberText kv ++ encodeRest rest)
      = some ((kv :: rest).map (fun x => (x.1, encodeNat x.2)))
  | [], kv, 0, h, _ => by simp at h
  | [], kv, fuel + 1, _, hq => by
    have e : memberText kv ++ encodeRest []
        = '"' :: (kv.1.toList ++ '"' :: (':' :: (encodeNat kv.2 ++ encodeRest []))) := by
      simp [memberText]
    rw [e]
    simp only [scanMembers, ne_eq, not_true_eq_false, if_false,
      scanString_quote _ _ (hq kv (by simp)), scanValue_number]
    simp [encodeRest, encodeNat_ne_nil, string_mk_toList]
  | kv2 :: rest, kv, 0, h, _ => by simp at h
  | kv2 :: rest, kv, fuel + 1, h, hq => by
    have e : memberText kv ++ encodeRest (kv2 :: rest)
        = '"' :: (kv.1.toList ++ '"' :: (':' :: (encodeNat kv.2 ++ encodeRest (kv2 :: rest)))) := by
      simp [memberText]
    have ih := scanMembers_fields rest kv2 fuel (by simpa using h)
      (fun x hx => hq x (List.mem_cons_of_mem _ hx))
    rw [e]
    simp only [scanMembers, ne_eq, not_true_eq_false, if_false,
      scanString_quote _ _ (hq kv (by simp)), scanValue_number]
    simp [encodeRest, encodeNat_ne_nil, string_mk_toList, ih]

theorem lookup_not_mem {α : Type} (k : String) : ∀ (m : List (String × α)),
    k ∉ m.map Prod.fst → m.lookup k = none
  | [], _ => rfl
  | (k1, a1) :: m, h => by
    have h1 : k ≠ k1 := fun e => h (by simp [e])
    have h2 : k ∉ m.map Prod.fst := fun e => h (by simp [e])
    have hb : (k == k1) = false := by simpa using h1
    simp only [List.lookup_cons, hb]
    exact lookup_not_mem k m h2

theorem lookup_append_not_mem {α : Type} (k : String) (m2 : List (String × α)) :
    ∀ (m1 : List (String × α)), k ∉ m1.map Prod.fst → (m1 ++ m2).lookup k = m2.lookup k
  | [], _ => rfl
  | (k1, a1) :: m1, h => by
    have h1 : k ≠ k1 := fun e => h (by simp [e])
    have h2 : k ∉ m1.map Prod.fst := fun e => h (by simp [e])
    have hb : (k == k1) = false := by simpa using h1
    simp only [List.cons_append, List.lookup_cons, hb]
    exact lookup_append_not_mem k m2 m1 h2

theorem map_set_not_mem {α : Type} (k : String) (a : α) : ∀ (m : List (String × α)),
    k ∉ m.map Prod.fst → m.map (fun kv => if kv.1 = k then (k, a) else kv) = m
  | [], _ => rfl
  | (k1, a1) :: m, h => by
    have h1 : k1 ≠ k := fun e => h (by simp [e])
    have h2 : k ∉ m.map Prod.fst := fun e => h (by simp [e])
    simp [h1, map_set_not_mem k a m h2]

theorem mapSet_new {α : Type} (m : List (String × α)) (k : String) (a : α)
    (h : k ∉ m.map Prod.fst) : mapSet m k a = m ++ [(k, a)] := by
  simp [mapSet, lookup_not_mem k m h]

theorem foldl_mapSet {α : Type} : ∀ (ms acc : List (String × α)),
    ((acc ++ ms).map Prod.fst).Nodup →
    ms.foldl (fun m kv => mapSet m kv.1 kv.2) acc = acc ++ ms
  | [], acc, _ => by simp
  | kv :: ms, acc, h => by
    have hk : kv.1 ∉ acc.map Prod.fst := by
      simp only [List.map_append, List.map_cons] at h
      have := (List.nodup_append.mp h).2.2
      exact fun hm => this hm (by simp)
    have h2 : (((acc ++ [kv]) ++ ms).map Prod.fst).Nodup := by
      simpa using h
    simp only [List.foldl_cons, mapSet_new acc kv.1 kv.2 hk]
    rw [foldl_mapSet ms (acc ++ [kv]) h2]
    simp

theorem decodeFields_fields : ∀ (todo done : Fields),
    ((done ++ todo).map Prod.fst).Nodup →
    decodeFields (todo.map (fun x => (x.1, encodeNat x.2)))
        (done ++ todo.map (fun x => (x.1, 0)))
      = (done ++ todo, none)
  | [], done, _ => by simp [decodeFields]
  | (k, n) :: todo, done, h => by
    have hn : ((done.map Prod.fst) ++ k :: todo.map Prod.fst).Nodup := by
      simpa using h
    have hk1 : k ∉ done.map Prod.fst := by
      have := (List.nodup_append.mp hn).2.2
      exact fun hm => this hm (by simp)
    have hk2 : k ∉ todo.map Prod.fst := by
      have := (List.nodup_append.mp hn).2.1
      exact (List.nodup_cons.mp this).1
    have hk3 : k ∉ (todo.map (fun x => (x.1, (0 : Nat)))).map Prod.fst := by
      simpa [Function.comp_def] using hk2
    have hl : (done ++ (k, 0) :: todo.map (fun x => (x.1, (0 : Nat)))).lookup k = some 0 := by
      rw [lookup_append_not_mem k _ done hk1]
      simp [List.lookup_cons]
    have hm : mapSet (done ++ (k, 0) :: todo.map (fun x => (x.1, (0 : Nat)))) k n
        = (done ++ [(k, n)]) ++ todo.map (fun x => (x.1, 0)) := by
      simp only [mapSet, hl, Option.isSome_some, if_true, List.map_append, List.map_cons,
        map_set_not_mem k n done hk1, map_set_not_mem k n _ hk3]
      simp
    have h2 : (((done ++ [(k, n)]) ++ todo).map Prod.fst).Nodup := by
      simpa using h
    simp only [List.map_cons, decodeFields, hl, Option.isSome_some, if_true,
      parseNat_encodeNat, hm]
    rw [decodeFields_fields todo (done ++ [(k, n)]) h2]
    simp

theorem encodeRest_length : ∀ (rest : Fields), rest.length < (encodeRest rest).length
  | [] => by simp [encodeRest]
  | kv :: rest => by
    have := encodeRest_length rest
    simp only [encodeRest, List.length_cons, List.length_append]
    omega

theorem parseObject_fields (v : Fields) (hq : ∀ kv ∈ v, '"' ∉ kv.1.toList)
    (hn : (v.map Prod.fst).Nodup) :
    parseObject (encodeFields v) = Except.ok (v.map (fun x => (x.1, encodeNat x.2))) := by
  cases v with
  | nil => simp [encodeFields, parseObject]
  | cons kv rest =>
    have hlen : rest.length < (memberText kv ++ encodeRest rest).length := by
      have := encodeRest_length rest
      simp only [List.length_append]
      omega
    have hs := scanMembers_fields rest kv _ hlen hq
    have hf := foldl_mapSet ((kv :: rest).map (fun x => (x.1, encodeNat x.2))) []
      (by simpa [Function.comp_def] using hn)
    have h1 : ¬ encodeFields (kv :: rest) = ['n', 'u', 'l', 'l'] := by
      simp [encodeFields]
    have h2 : ¬ encodeFields (kv :: rest) = ['{', '}'] := by
      simp [encodeFields, memberText]
    unfold parseObject
    rw [if_neg h1, if_neg h2]
    simp only [encodeFields, List.cons_append, ↓reduceIte, hs, hf]
    simp

theorem parseObject_frame (msgID : String) (v : Fields) (hid : '"' ∉ msgID.toList)
    (hq : ∀ kv ∈ v, '"' ∉ kv.1.toList) :
    parseObject (['{', '"'] ++ msgID.toList ++ ['"', ':'] ++ encodeFields v ++ ['}'])
      = Except.ok [(msgID, encodeFields v)] := by
  have e : ['{', '"'] ++ msgID.toList ++ ['"', ':'] ++ encodeFields v ++ ['}']
      = '{' :: '"' :: (msgID.toList ++ '"' :: (':' :: (encodeFields v ++ '}' :: []))) := by
    simp
  rw [e]
  have h1 : ¬ '{' :: '"' :: (msgID.toList ++ '"' :: (':' :: (encodeFields v ++ '}' :: [])))
      = ['n', 'u', 'l', 'l'] := by simp
  have h2 : ¬ '{' :: '"' :: (msgID.toList ++ '"' :: (':' :: (encodeFields v ++ '}' :: [])))
      = ['{', '}'] := by simp
  unfold parseObject
  rw [if_neg h1, if_neg h2]
  simp only [↓reduceIte, List.length_cons, scanMembers, ne_eq, not_true_eq_false,
    scanString_quote _ _ hid, scanValue_fields v [] hq]
  simp [encodeFields_ne_nil, string_mk_toList, mapSet]

/-! ## Claims about the processor -/

/-- C1, as stated, fails: with a raw handler attached to the registered kind
`Hello`, `Marshal` of a `*Hello` succeeds with one buffer, and `Unmarshal` of
that buffer returns the `MsgRaw` envelope, not a pointer to a `Hello`. -/
theorem C1_raw_handler_suppresses_decode :
    Marshal (miniJSON exampleDecl) rawProcessor [[("N", 7)]]
        (Iface.val (RType.ptr helloType) (some 0)) = (some [some helloFrame], none) ∧
      Unmarshal (miniJSON exampleDecl) rawProcessor [[("N", 7)]] helloFrame
        = Ret.ret ((Iface.raw "Hello" ['{', '"', 'N', '"', ':', '7', '}'], none),
            [[("N", 7)]]) := by
  decide

/-- C1, amended: let `m` be a non-nil pointer of type `*T` to the value `v`,
where `T` is a struct type with distinctly named unsigned integer fields and
an identifier as its name, and let the entry registered under `T`'s name hold
the type `*T` and no raw handler.  Then `Marshal m` returns no error and
exactly one buffer, the text of the one-key object under `T`'s name, and
`Unmarshal` of that buffer returns no error and a pointer of type `*T` to a
newly allocated address, different from `m`'s, that holds `v`.  The JSON
library is the fragment `miniJSON`, whose reading back of what it writes is
proved here, not assumed. -/
theorem C1_marshal_unmarshal_roundtrip (decl : RType → List String) (p : Processor)
    (h : Heap Fields) (e : RType) (a : Nat) (v : Fields) (i : MsgInfo)
    (hv : h.get? a = some v)
    (hreg : p.get e.Name = some i)
    (htype : i.msgType = RType.ptr e)
    (hraw : i.msgRawHandler = none)
    (hname : isIdent e.Name = true)
    (hfields : ∀ k ∈ decl e, isIdent k = true)
    (hnodup : (decl e).Nodup)
    (hval : v.map Prod.fst = decl e) :
    Marshal (miniJSON decl) p h (Iface.val (RType.ptr e) (some a))
        = (some [some (['{', '"'] ++ e.Name.toList ++ ['"', ':'] ++ encodeFields v ++ ['}'])],
           none) ∧
      Unmarshal (miniJSON decl) p h
          (['{', '"'] ++ e.Name.toList ++ ['"', ':'] ++ encodeFields v ++ ['}'])
        = Ret.ret ((Iface.val (RType.ptr e) (some h.length), none), h ++ [v]) ∧
      h.length ≠ a ∧ (h ++ [v]).get? h.length = some v := by
  have hq : ∀ kv ∈ v, '"' ∉ kv.1.toList := by
    intro kv hkv
    apply ident_noQuote
    apply hfields
    rw [← hval]
    exact List.mem_map_of_mem Prod.fst hkv
  have hn : (v.map Prod.fst).Nodup := by rw [hval]; exact hnodup
  have hz : (miniJSON decl).zero e = v.map (fun x => (x.1, 0)) := by
    simp [miniJSON, ← hval, Function.comp_def]
  have hdec : decodeFields (v.map (fun x => (x.1, encodeNat x.2))) (v.map (fun x => (x.1, 0)))
      = (v, none) := by
    have := decodeFields_fields v [] (by simpa using hn)
    simpa using this
  have hinto : (miniJSON decl).unmarshalInto e (encodeFields v) ((miniJSON decl).zero e)
      = (v, none) := by
    rw [hz]
    simp only [miniJSON, parseObject_fields v hq hn, hdec]
  have hmap : (miniJSON decl).unmarshalMap
      (['{', '"'] ++ e.Name.toList ++ ['"', ':'] ++ encodeFields v ++ ['}'])
      = Except.ok [(e.Name, encodeFields v)] :=
    parseObject_frame e.Name v (ident_noQuote hname) hq
  refine ⟨?_, ?_, ?_, ?_⟩
  · have hv1 : h[a]? = some v := by simpa using hv
    simp [Marshal, hreg, hv1, miniJSON]
  · simp only [Unmarshal, hmap, List.length_singleton, ne_eq, not_true_eq_false, if_false,
      hreg, hraw, Option.isSome_none, Bool.false_eq_true, htype, hinto]
  · have := List.get?_eq_some.mp hv
    obtain ⟨hlt, _⟩ := this
    omega
  · simp

/-- Witness for C1: a `*Hello` with `N = 7` and the processor that has `Hello`
registered. -/
theorem C1_marshal_unmarshal_roundtrip_witness :
    Marshal (miniJSON exampleDecl) helloProcessor [[("N", 7)]]
        (Iface.val (RType.ptr helloType) (some 0))
        = (some [some (['{', '"'] ++ helloType.Name.toList ++ ['"', ':'] ++
            encodeFields [("N", 7)] ++ ['}'])], none) ∧
      Unmarshal (miniJSON exampleDecl) helloProcessor [[("N", 7)]]
          (['{', '"'] ++ helloType.Name.toList ++ ['"', ':'] ++ encodeFields [("N", 7)] ++ ['}'])
        = Ret.ret ((Iface.val (RType.ptr helloType) (some [[("N", 7)]].length), none),
            [[("N", 7)]] ++ [[("N", 7)]]) ∧
      [[("N", 7)]].length ≠ 0 ∧
      ([[("N", 7)]] ++ [[("N", 7)]]).get? [[("N", 7)]].length = some [("N", 7)] :=
  C1_marshal_unmarshal_roundtrip exampleDecl helloProcessor [[("N", 7)]]
    helloType 0 [("N", 7)]
    { msgType := RType.ptr helloType, msgRouter := none, msgHandler := none,
      msgRawHandler := none }
    rfl rfl rfl rfl (by decide) (by decide) (by decide) rfl

/-- C2: when the frame parses as a JSON object, `Unmarshal` returns the nil
message with the error "invalid json data" if the object has no key or more
than one key, and the nil message with a "not registered" error if its single
key is not a registered kind; nothing is allocated. -/
theorem C2_unmarshal_rejects {V : Type} (lib : JSONLib V) (p : Processor) (h : Heap V)
    (data : Bytes) (m : List (String × Bytes))
    (hparse : lib.unmarshalMap data = Except.ok m) :
    (m.length ≠ 1 →
      Unmarshal lib p h data = Ret.ret ((Iface.nil, some "invalid json data"), h)) ∧
    (∀ (k : String) (v : Bytes), m = [(k, v)] → p.get k = none →
      Unmarshal lib p h data = Ret.ret ((Iface.nil, some (notRegistered k)), h)) := by
  constructor
  · intro hl
    simp [Unmarshal, hparse, hl]
  · intro k v hm hk
    subst hm
    simp [Unmarshal, hparse, hk]

/-- Witness for C2: a frame with two keys. -/
theorem C2_unmarshal_rejects_witness :
    ([("Hello", ['{', '"', 'N', '"', ':', '7', '}']), ("Bye", ['{', '}'])].length ≠ 1 →
      Unmarshal (miniJSON exampleDecl) helloProcessor [] twoKeyFrame
        = Ret.ret ((Iface.nil, some "invalid json data"), [])) ∧
    (∀ (k : String) (v : Bytes),
      [("Hello", ['{', '"', 'N', '"', ':', '7', '}']), ("Bye", ['{', '}'])] = [(k, v)] →
      helloProcessor.get k = none →
      Unmarshal (miniJSON exampleDecl) helloProcessor [] twoKeyFrame
        = Ret.ret ((Iface.nil, some (notRegistered k)), [])) :=
  C2_unmarshal_rejects (miniJSON exampleDecl) helloProcessor [] twoKeyFrame
    [("Hello", ['{', '"', 'N', '"', ':', '7', '}']), ("Bye", ['{', '}'])] rfl

/-- C3: after `SetRawHandler(K, handler)` with a non-nil handler has returned
(so `K` is registered), the entry of `K` holds that handler, and `Unmarshal`
of every frame that parses as the one-key object `{K: v}` returns, without
error and without allocating, the envelope `MsgRaw{K, v}` carrying the bytes
of `v` as parsed. -/
theorem C3_raw_handler_passthrough (p p1 : Processor) (K : String) (handler : Nat)
    (hset : SetRawHandler p K (some handler) = Except.ok p1) :
    (∃ i, p.get K = some i ∧ p1.get K = some { i with msgRawHandler := some handler }) ∧
    ∀ {V : Type} (lib : JSONLib V) (h : Heap V) (data v : Bytes),
      lib.unmarshalMap data = Except.ok [(K, v)] →
      Unmarshal lib p1 h data = Ret.ret ((Iface.raw K v, none), h) := by
  unfold SetRawHandler at hset
  cases hg : p.get K with
  | none => rw [hg] at hset; cases hset
  | some i =>
    rw [hg] at hset
    simp only [Except.ok.injEq] at hset
    subst hset
    have h1 : (p.update K (fun i => { i with msgRawHandler := some handler })).get K
        = some { i with msgRawHandler := some handler } := by
      rw [get_update, hg]; rfl
    refine ⟨⟨i, rfl, h1⟩, ?_⟩
    intro V lib h data v hparse
    simp [Unmarshal, hparse, h1]

/-- Witness for C3: the raw handler 9 attached to `Hello`. -/
theorem C3_raw_handler_passthrough_witness :
    (∃ i, helloProcessor.get "Hello" = some i ∧
      rawProcessor.get "Hello" = some { i with msgRawHandler := some 9 }) ∧
    ∀ {V : Type} (lib : JSONLib V) (h : Heap V) (data v : Bytes),
      lib.unmarshalMap data = Except.ok [("Hello", v)] →
      Unmarshal lib rawProcessor h data = Ret.ret ((Iface.raw "Hello" v, none), h) :=
  C3_raw_handler_passthrough helloProcessor rawProcessor "Hello" 9 rfl

/-- C8: for a message of pointer type `*T`: if an entry is registered under
`T`'s name, `Route` calls the entry's handler, when set, once with
`(msg, userData)`, then calls `Go(*T, msg, userData)` on the entry's router,
when set, once, makes no other call and returns no error; if no entry is
registered under that name, `Route` makes no call and returns the
"not registered" error. -/
theorem C8_route_typed_message (p : Processor) (e : RType) (a : Option Nat) (userData : Nat) :
    (∀ i : MsgInfo, p.get e.Name = some i →
      Route p (Iface.val (RType.ptr e) a) userData =
        (i.msgHandler.toList.map (fun hd =>
            Call.handler hd [Arg.msg (Iface.val (RType.ptr e) a), Arg.user userData]) ++
          i.msgRouter.toList.map (fun r =>
            Call.routerGo r (RType.ptr e)
              [Arg.msg (Iface.val (RType.ptr e) a), Arg.user userData]),
         none)) ∧
    (p.get e.Name = none →
      Route p (Iface.val (RType.ptr e) a) userData = ([], some (notRegistered e.Name))) := by
  constructor
  · intro i hi
    simp only [Route, typeOf, hi]
    cases i.msgHandler <;> cases i.msgRouter <;> rfl
  · intro hn
    simp [Route, typeOf, hn]

/-- Witness for C8: `Hello` with handler 1 and router 2. -/
theorem C8_route_typed_message_witness :
    Route routedProcessor (Iface.val (RType.ptr helloType) (some 0)) 5 =
      ([Call.handler 1 [Arg.msg (Iface.val (RType.ptr helloType) (some 0)), Arg.user 5],
        Call.routerGo 2 (RType.ptr helloType)
          [Arg.msg (Iface.val (RType.ptr helloType) (some 0)), Arg.user 5]], none) :=
  (C8_route_typed_message routedProcessor helloType (some 0) 5).1
    { msgType := RType.ptr helloType, msgRouter := some 2, msgHandler := some 1,
      msgRawHandler := none } rfl

end Leaf
